import Mathlib

/-!
Verification development for the semantic-analysis module of `asn1ate`
(`src/asn1ate/sema.py`).  The Python code is shallowly embedded: pure
functions become Lean functions, the process-wide unnamed-member counter
becomes explicitly threaded state, fallible operations (exceptions,
attribute errors, key errors) return `Except`/`Option`, and the
`topological_sort` while-loop becomes a fuel-indexed recursion together
with a proof that the chosen fuel always suffices.
-/

namespace Asn1ate

/-! ## Dependency sorter (`topological_sort`, sema.py lines 41-78)

Entities are modelled generically: anything with a `reference_name()`
(a `String`) and `references()` (a list of `String`).  Python's
`dict` keyed by strings is modelled as an association list with
insertion-order keys; `set(...)` is modelled as `List.dedup` (Python set
iteration order is hash-dependent and unspecified; only membership
matters for the properties proved here). -/

abbrev Graph := List (String × List String)

def keysOf (g : Graph) : List String := g.map Prod.fst

/-- `dict` insertion: replacing the value in place if the key exists
(keeping the key's original position), appending otherwise. -/
def dictInsert (g : Graph) (k : String) (v : List String) : Graph :=
  if g.any (fun p => p.1 = k) then
    g.map (fun p => if p.1 = k then (k, v) else p)
  else
    g ++ [(k, v)]

/-- `graph = dict((d.reference_name(), set(d.references())) for d in decls)` -/
def buildGraph (refName : α → String) (refs : α → List String) (decls : List α) : Graph :=
  decls.foldl (fun g d => dictInsert g (refName d) (refs d).dedup) []

/-- `has_predecessor(node)`: some entry's dependency set contains `node`. -/
def has_predecessor (g : Graph) (n : String) : Bool :=
  g.any (fun p => n ∈ p.2)

/-- `graph.pop(root, set())`: the value stored at `root` (or `[]` when
absent) together with the dictionary with that key removed. -/
def popKey : Graph → String → (List String × Graph)
  | [], _ => ([], [])
  | p :: g, k =>
    if p.1 = k then (p.2, g)
    else
      let r := popKey g k
      (r.1, p :: r.2)

/-- Dictionary lookup (first entry with the given key, `[]` when absent). -/
def lookupDeps : Graph → String → List String
  | [], _ => []
  | p :: g, k => if p.1 = k then p.2 else lookupDeps g k

/-- Termination measure for the sorter's while-loop. -/
def graphMeasure (g : Graph) (roots : List String) : Nat :=
  roots.length + (g.map (fun p => p.2.length + 1)).sum

/-- The while-loop of `topological_sort`.  `roots` is a stack whose top is
the list's last element (`roots.pop()` / `roots.extend(...)`), and the
output order is built by prepending (`topological_order.insert(0, root)`).
The fuel argument only serves termination; `sortLoop_total` below shows it
never runs out for the fuel chosen in `topological_sort`. -/
def sortLoop : Nat → Graph → List String → List String → Option (Graph × List String)
  | 0, _, _, _ => none
  | fuel + 1, g, roots, order =>
    match roots.getLast? with
    | none => some (g, order)
    | some root =>
      let pr := popKey g root
      let newRoots := pr.1.filter (fun s => !has_predecessor pr.2 s)
      sortLoop fuel pr.2 (roots.dropLast ++ newRoots) (root :: order)

/-- `topological_sort(decls)`: on success the declarations sorted by the
rank of their name in the computed order (Python's `sorted` is a stable
comparison sort, modelled by the stable `List.insertionSort`); on a
cycle, the error carries the remaining graph.  (Python's `list.index`
raises on a missing name; in the success branch all declaration names
occur in the computed order, see `C1` below.) -/
def topological_sort (refName : α → String) (refs : α → List String)
    (decls : List α) : Except Graph (List α) :=
  let graph := buildGraph refName refs decls
  let roots := (keysOf graph).filter (fun n => !has_predecessor graph n)
  match sortLoop (graphMeasure graph roots + 1) graph roots [] with
  | none => .error graph
  | some (g, topological_order) =>
    if g.isEmpty then
      .ok (decls.insertionSort (fun a b =>
        topological_order.indexOf (refName a) ≤
          topological_order.indexOf (refName b)))
    else
      .error g

/-- `b` occurs strictly before `a` in the list `l`. -/
def appearsBefore (l : List α) (b a : α) : Prop :=
  ∃ l₁ l₂ l₃, l = l₁ ++ b :: l₂ ++ a :: l₃

/-- Dependency edge of a graph: `a`'s stored dependency set contains `b`. -/
def depEdge (g : Graph) (a b : String) : Prop :=
  b ∈ lookupDeps g a

/-- Some name lies on a dependency cycle of `g`. -/
def HasCycle (g : Graph) : Prop :=
  ∃ n, Relation.TransGen (depEdge g) n n

/-! ## Token trees

`parser.AnnotatedToken` carries a type tag `ty` and a list `elements`
whose items are annotated tokens, raw string scalars, or plain Python
lists of tokens.  These three shapes are `node`, `lit` and `group`. -/

inductive Token where
  | node (ty : String) (elements : List Token)
  | lit (s : String)
  | group (elements : List Token)

/-! ## Sema nodes

One constructor per Python class in sema.py.  Scalar-valued attributes
(`type_name`, identifiers, tag class/number) are modelled as `String`;
where Python would store a raw parse element unchanged
(`_maybe_create_sema_node`'s fallback, `ComponentType.default_value`)
the original `Token` is kept. -/

mutual
inductive SemaNode where
  | module (name : String) (declarations : List SemaNode)
  | typeAssignment (type_name : String) (type_decl : SemaNode)
  | valueAssignment (value_name : SemaNode) (type_decl : SemaNode) (value : MaybeNode)
  | valueReference (name : String)
  | choiceType (type_name : String) (components : List SemaNode)
  | sequenceType (type_name : String) (components : List SemaNode)
  | sequenceOfType (type_name : String) (type_decl : SemaNode)
  | setOfType (type_name : String) (type_decl : SemaNode)
  | taggedType (class_name : Option String) (class_number : Option String)
      (implicit : Bool) (type_decl : SemaNode)
  | simpleType (type_name : String) (constraint : Option ConstraintNode)
  | userDefinedType (type_name : String)
  | componentType (identifier : String) (optional : Bool)
      (default_value : Option Token) (type_decl : SemaNode)
  | namedType (identifier : String) (type_decl : SemaNode)
  | valueListType (type_name : String) (named_values : Option (List SemaNode))
  | bitStringType (type_name : String) (named_bits : Option (List SemaNode))
  | namedValue (identifier : String) (value : String)

/-- Result of `_maybe_create_sema_node`: a sema node for annotated
tokens, the raw token otherwise. -/
inductive MaybeNode where
  | node (n : SemaNode)
  | raw (t : Token)

/-- The `Constraint` helper object (min and max bound). -/
inductive ConstraintNode where
  | mk (min_value : MaybeNode) (max_value : MaybeNode)
end

/-- `_get_next_unnamed()`: increments the process-wide counter and
formats the synthesized identifier.  The counter is the explicit state
threaded through construction. -/
def _get_next_unnamed (c : Nat) : String × Nat :=
  ("unnamed" ++ toString (c + 1), c + 1)

/-- A scalar parse element where Python's parser contract guarantees a
string; a non-string here is upstream contract violation (spec section
4.1), signalled as a failure. -/
def expectLit : Token → Except String String
  | .lit s => pure s
  | _ => throw "invalid semantic input: expected scalar"

/-- `.ty` attribute access (AttributeError on a non-token). -/
def tokTy : Token → Except String String
  | .node ty _ => pure ty
  | _ => throw "AttributeError: ty"

/-- `.elements` attribute access (AttributeError on a non-token). -/
def tokEls : Token → Except String (List Token)
  | .node _ els => pure els
  | _ => throw "AttributeError: elements"

/-- `isinstance(x, parser.AnnotatedToken)` (also used for
`type(x) is parser.AnnotatedToken`). -/
def isAnnotated : Token → Bool
  | .node _ _ => true
  | _ => false

/-- `self.optional = elements and elements[0].ty == 'ComponentOptional'`
(an empty remainder is falsy; `.ty` on a raw string raises). -/
def componentOptional : List Token → Except String Bool
  | [] => pure false
  | e :: _ =>
    match e with
    | .node ty _ => pure (ty == "ComponentOptional")
    | _ => throw "AttributeError: ty"

/-- The `ComponentDefault` branch of `ComponentType.__init__`,
including the `DEFAULT` keyword assertion. -/
def componentDefault : List Token → Except String (Option Token)
  | [] => pure none
  | e :: _ =>
    match e with
    | .node ty dEls =>
      if ty == "ComponentDefault" then
        match dEls with
        | [] => throw "IndexError"
        | d0 :: drest =>
          match d0 with
          | .lit s =>
            if s == "DEFAULT" then
              match drest with
              | d1 :: _ => pure (some d1)
              | [] => throw "IndexError"
            else throw "assertion failed: DEFAULT"
          | _ => throw "assertion failed: DEFAULT"
      else pure none
    | _ => throw "AttributeError: ty"

/-- The tag-element loop of `TaggedType.__init__`: fills in
`(class_name, class_number)`, last assignment winning. -/
def parseTagElements (tag_token : Token) : Except String (Option String × Option String) :=
  match tag_token with
  | .node _ tagEls =>
    tagEls.foldlM (fun acc tag_element =>
      match tag_element with
      | .node tty tels =>
        if tty == "TagClassNumber" then
          match tels with
          | e :: _ => do
            let n ← expectLit e
            pure (acc.1, some n)
          | [] => throw "IndexError"
        else if tty == "TagClass" then
          match tels with
          | e :: _ => do
            let n ← expectLit e
            pure (some n, acc.2)
          | [] => throw "IndexError"
        else throw "assertion failed: unknown tag element"
      | _ => throw "AttributeError: ty") ((none, none) : Option String × Option String)
  | _ => throw "AttributeError: elements"

/-! ## `_create_sema_node` and the class constructors

One function per Python `__init__` (`<Class>_init` mirrors
`<Class>.__init__(elements)`).  Each constructor receives the
module-level node factory as an explicit argument `create` (Python
resolves the global name `_create_sema_node` at call time; the knot is
tied below in `createSemaNodeF`).  The unnamed-member counter is
threaded through explicitly; any shape violation that would raise in
Python (failed assert, unpacking error, IndexError, AttributeError)
becomes an `Except.error`.

The recursion of the source is untangled with a fuel parameter on the
knot: `_create_sema_node t c` runs the dispatcher with fuel
`sizeOf t + 1`, which `createF_stable` below proves is always enough
(the value is the same under every sufficiently large fuel), so the
artificial recursion limit is never hit. -/

abbrev CreateFun := Token → Nat → Except String (SemaNode × Nat)

/-! The size of a token tree, used as the (always sufficient) fuel of
the knot below. -/

mutual
def tokSize : Token → Nat
  | .node _ els => 1 + tokListSize els
  | .lit _ => 1
  | .group els => 1 + tokListSize els
def tokListSize : List Token → Nat
  | [] => 0
  | t :: ts => 1 + tokSize t + tokListSize ts
end

/-- List comprehension `[_create_sema_node(t) for t in tokens]`,
threading the counter left to right. -/
def createNodeListF (create : CreateFun) :
    List Token → Nat → Except String (List SemaNode × Nat)
  | [], c => pure ([], c)
  | t :: ts, c => do
    let r ← create t c
    let rs ← createNodeListF create ts r.2
    pure (r.1 :: rs.1, rs.2)

/-- `Module.__init__` (six-element shape, name from the module
reference, declarations from the module body). -/
def Module_init (create : CreateFun) :
    List Token → Nat → Except String (SemaNode × Nat)
  | [module_reference, _, _, _, module_body, _], c =>
    match module_reference, module_body with
    | .node _ mrEls, .node _ mbEls => do
      let name ← (match mrEls with
        | e :: _ => expectLit e
        | [] => throw "IndexError")
      let r ← createNodeListF create mbEls c
      pure (.module name r.1, r.2)
    | _, _ => throw "assertion failed: not an annotated token"
  | _, _ => throw "ValueError: ModuleDefinition shape"

/-- `TypeAssignment.__init__` (asserts exactly three elements). -/
def TypeAssignment_init (create : CreateFun) :
    List Token → Nat → Except String (SemaNode × Nat)
  | [type_name_tok, _, type_decl_tok], c => do
    let n ← expectLit type_name_tok
    let r ← create type_decl_tok c
    pure (.typeAssignment n r.1, r.2)
  | _, _ => throw "assertion failed: TypeAssignment arity"

/-- `ValueAssignment.__init__`. -/
def ValueAssignment_init (create : CreateFun) :
    List Token → Nat → Except String (SemaNode × Nat)
  | [value_name, type_name_tok, _, value], c => do
    let vnEls ← tokEls value_name
    let vn ← (match vnEls with
      | e :: _ => expectLit e
      | [] => throw "IndexError")
    let r ← create type_name_tok c
    if isAnnotated value then do
      let rv ← create value r.2
      pure (.valueAssignment (.valueReference vn) r.1 (.node rv.1), rv.2)
    else
      pure (.valueAssignment (.valueReference vn) r.1 (.raw value), r.2)
  | _, _ => throw "ValueError: ValueAssignment shape"

/-- `ValueReference.__init__` (name = first element). -/
def ValueReference_init : List Token → Nat → Except String (SemaNode × Nat)
  | e :: _, c => do
    let n ← expectLit e
    pure (.valueReference n, c)
  | [], _ => throw "IndexError"

/-- `ComponentType.__init__`. -/
def ComponentType_init (create : CreateFun) :
    List Token → Nat → Except String (SemaNode × Nat)
  | [], _ => throw "IndexError"
  | first_token :: rest, c => do
    let fty ← tokTy first_token
    if fty == "Type" then
      -- an unnamed member: type_token is first_token itself
      do
        let u := _get_next_unnamed c
        let opt ← componentOptional rest
        let dflt ← componentDefault rest
        let r ← create first_token u.2
        pure (.componentType u.1 opt dflt r.1, r.2)
    else if fty == "Identifier" then
      match rest with
      | type_token :: rest2 => do
        let ftEls ← tokEls first_token
        let ident ← (match ftEls with
          | e :: _ => expectLit e
          | [] => throw "IndexError")
        let opt ← componentOptional rest2
        let dflt ← componentDefault rest2
        let r ← create type_token c
        pure (.componentType ident opt dflt r.1, r.2)
      | [] => throw "IndexError"
    else throw "NameError: type_token"

/-- `NamedType.__init__` (asserts the two tags). -/
def NamedType_init (create : CreateFun) :
    List Token → Nat → Except String (SemaNode × Nat)
  | e0 :: e1 :: _, c => do
    let ty0 ← tokTy e0
    let ty1 ← tokTy e1
    if ty0 == "Identifier" && ty1 == "Type" then do
      let e0Els ← tokEls e0
      let i ← (match e0Els with
        | e :: _ => expectLit e
        | [] => throw "IndexError")
      let r ← create e1 c
      pure (.namedType i r.1, r.2)
    else throw "assertion failed: NamedType tags"
  | _, _ => throw "IndexError"

/-- `ValueListType.__init__`. -/
def ValueListType_init (create : CreateFun) :
    List Token → Nat → Except String (SemaNode × Nat)
  | [], _ => throw "IndexError"
  | [tn_tok], c => do
    let tn ← expectLit tn_tok
    pure (.valueListType tn none, c)
  | tn_tok :: vals_tok :: _, c => do
    let tn ← expectLit tn_tok
    match vals_tok with
    | .group vts => do
      let r ← createNodeListF create vts c
      pure (.valueListType tn (some r.1), r.2)
    | _ => throw "TypeError: not iterable"

/-- `BitStringType.__init__`. -/
def BitStringType_init (create : CreateFun) :
    List Token → Nat → Except String (SemaNode × Nat)
  | [], _ => throw "IndexError"
  | [tn_tok], c => do
    let tn ← expectLit tn_tok
    pure (.bitStringType tn none, c)
  | tn_tok :: bits_tok :: _, c => do
    let tn ← expectLit tn_tok
    match bits_tok with
    | .group bts => do
      let r ← createNodeListF create bts c
      pure (.bitStringType tn (some r.1), r.2)
    | _ => throw "TypeError: not iterable"

/-- `NamedValue.__init__` (exactly two elements). -/
def NamedValue_init : List Token → Nat → Except String (SemaNode × Nat)
  | [identifier_token, value_token], c => do
    let iEls ← tokEls identifier_token
    let vEls ← tokEls value_token
    let i ← (match iEls with
      | e :: _ => expectLit e
      | [] => throw "IndexError")
    let v ← (match vEls with
      | e :: _ => expectLit e
      | [] => throw "IndexError")
    pure (.namedValue i v, c)
  | _, _ => throw "ValueError: NamedValue shape"

/-- `SimpleType.__init__` (with `Constraint.__init__` and
`_maybe_create_sema_node` inlined). -/
def SimpleType_init (create : CreateFun) :
    List Token → Nat → Except String (SemaNode × Nat)
  | [], _ => throw "IndexError"
  | tn_tok :: rest, c => do
    let tn ← expectLit tn_tok
    match rest with
    | [] => pure (.simpleType tn none, c)
    | e1 :: _ =>
      match e1 with
      | .lit _ => throw "AttributeError: ty"
      | .group _ => throw "AttributeError: ty"
      | .node cty cEls =>
        if cty == "Constraint" then
          match cEls with
          | [mn, mx] => do
            let r1 ← (if isAnnotated mn then do
                let r ← create mn c
                pure (MaybeNode.node r.1, r.2)
              else pure (MaybeNode.raw mn, c))
            let r2 ← (if isAnnotated mx then do
                let r ← create mx r1.2
                pure (MaybeNode.node r.1, r.2)
              else pure (MaybeNode.raw mx, r1.2))
            pure (.simpleType tn (some (ConstraintNode.mk r1.1 r2.1)), r2.2)
          | _ => throw "ValueError: Constraint shape"
        else pure (.simpleType tn none, c)

/-- `UserDefinedType.__init__` (the `ReferencedType` branch). -/
def UserDefinedType_init : List Token → Nat → Except String (SemaNode × Nat)
  | e :: _, c => do
    let n ← expectLit e
    pure (.userDefinedType n, c)
  | [], _ => throw "IndexError"

/-- `TaggedType.__init__`. -/
def TaggedType_init (create : CreateFun) :
    List Token → Nat → Except String (SemaNode × Nat)
  | tag_token :: e1 :: rest, c =>
    if isAnnotated e1 then do
      -- second element is an annotated token: it is the type
      let cls ← parseTagElements tag_token
      let r ← create e1 c
      pure (.taggedType cls.1 cls.2 false r.1, r.2)
    else
      match rest with
      | type_token :: _ => do
        let impl := (match e1 with
          | .lit s => s == "IMPLICIT"
          | _ => false)
        let cls ← parseTagElements tag_token
        let r ← create type_token c
        pure (.taggedType cls.1 cls.2 impl r.1, r.2)
      | [] => throw "IndexError"
  | _, _ => throw "IndexError"

/-- `SequenceType.__init__` via `ConstructedType.__init__`. -/
def SequenceType_init (create : CreateFun) :
    List Token → Nat → Except String (SemaNode × Nat)
  | [tn_tok, comp_toks], c => do
    let tn ← expectLit tn_tok
    match comp_toks with
    | .group cts => do
      let r ← createNodeListF create cts c
      pure (.sequenceType tn r.1, r.2)
    | _ => throw "TypeError: not iterable"
  | _, _ => throw "ValueError: ConstructedType shape"

/-- `ChoiceType.__init__` via `ConstructedType.__init__`. -/
def ChoiceType_init (create : CreateFun) :
    List Token → Nat → Except String (SemaNode × Nat)
  | [tn_tok, comp_toks], c => do
    let tn ← expectLit tn_tok
    match comp_toks with
    | .group cts => do
      let r ← createNodeListF create cts c
      pure (.choiceType tn r.1, r.2)
    | _ => throw "TypeError: not iterable"
  | _, _ => throw "ValueError: ConstructedType shape"

/-- `SequenceOfType.__init__`. -/
def SequenceOfType_init (create : CreateFun) :
    List Token → Nat → Except String (SemaNode × Nat)
  | [tn_tok, type_token], c => do
    let tn ← expectLit tn_tok
    let r ← create type_token c
    pure (.sequenceOfType tn r.1, r.2)
  | _, _ => throw "ValueError: SequenceOfType shape"

/-- `SetOfType.__init__`. -/
def SetOfType_init (create : CreateFun) :
    List Token → Nat → Except String (SemaNode × Nat)
  | [tn_tok, type_token], c => do
    let tn ← expectLit tn_tok
    let r ← create type_token c
    pure (.setOfType tn r.1, r.2)
  | _, _ => throw "ValueError: SetOfType shape"

/-- The dispatcher of sema.py lines 503-543, fuel-indexed (fuel is an
artifact of the embedding; `createF_stable` shows any fuel above
`sizeOf t` gives the same result). -/
def createSemaNodeF : Nat → Token → Nat → Except String (SemaNode × Nat)
  | 0, _, _ => throw "RecursionError"
  | fuel + 1, t, c =>
    match t with
    | .node ty els =>
      if ty == "ModuleDefinition" then Module_init (createSemaNodeF fuel) els c
      else if ty == "TypeAssignment" then TypeAssignment_init (createSemaNodeF fuel) els c
      else if ty == "ValueAssignment" then ValueAssignment_init (createSemaNodeF fuel) els c
      else if ty == "ValueReference" then ValueReference_init els c
      else if ty == "ComponentType" then ComponentType_init (createSemaNodeF fuel) els c
      else if ty == "NamedType" then NamedType_init (createSemaNodeF fuel) els c
      else if ty == "ValueListType" then ValueListType_init (createSemaNodeF fuel) els c
      else if ty == "BitStringType" then BitStringType_init (createSemaNodeF fuel) els c
      else if ty == "NamedValue" then NamedValue_init els c
      else if ty == "Type" then
        -- a Type token carries the specific category as its first element
        match els with
        | e :: _ => createSemaNodeF fuel e c
        | [] => throw "IndexError"
      else if ty == "SimpleType" then SimpleType_init (createSemaNodeF fuel) els c
      else if ty == "ReferencedType" then UserDefinedType_init els c
      else if ty == "TaggedType" then TaggedType_init (createSemaNodeF fuel) els c
      else if ty == "SequenceType" then SequenceType_init (createSemaNodeF fuel) els c
      else if ty == "ChoiceType" then ChoiceType_init (createSemaNodeF fuel) els c
      else if ty == "SequenceOfType" then SequenceOfType_init (createSemaNodeF fuel) els c
      else if ty == "SetOfType" then SetOfType_init (createSemaNodeF fuel) els c
      else throw ("Unknown token type: " ++ ty)
    | _ => throw "assertion failed: not an annotated token"

/-- `_create_sema_node(token)`: the dispatcher run with enough fuel for
the whole token tree. -/
def _create_sema_node (t : Token) (c : Nat) : Except String (SemaNode × Nat) :=
  createSemaNodeF (tokSize t + 1) t c

/-- `build_semantic_model(parse_result)`: one sema node per top-level
token (each must be an annotated token), counter threaded across the
whole run. -/
def build_semantic_model (parse_result : List Token) (c : Nat) :
    Except String (List SemaNode × Nat) :=
  createNodeListF _create_sema_node parse_result c

/-! ## Duck-typed attribute access

Python looks these attributes/methods up dynamically; a missing one
raises AttributeError, modelled as `none`. -/

/-- The `type_name` attribute (a `@property` on TaggedType, delegating
to the wrapped type). -/
def type_nameAttr : SemaNode → Option String
  | .typeAssignment n _ => some n
  | .choiceType n _ => some n
  | .sequenceType n _ => some n
  | .sequenceOfType n _ => some n
  | .setOfType n _ => some n
  | .taggedType _ _ _ td => type_nameAttr td
  | .simpleType n _ => some n
  | .userDefinedType n => some n
  | .valueListType n _ => some n
  | .bitStringType n _ => some n
  | _ => none

/-- The `type_decl` attribute. -/
def type_declAttr : SemaNode → Option SemaNode
  | .typeAssignment _ td => some td
  | .valueAssignment _ td _ => some td
  | .sequenceOfType _ td => some td
  | .setOfType _ td => some td
  | .taggedType _ _ _ td => some td
  | .componentType _ _ _ td => some td
  | .namedType _ td => some td
  | _ => none

/-- The `reference_name()` method (only some classes define it). -/
def reference_name : SemaNode → Option String
  | .typeAssignment n _ => some n
  | .valueAssignment vn _ _ => reference_name vn
  | .valueReference n => some n
  | .taggedType _ _ _ td => type_nameAttr td
  | .simpleType n _ => some n
  | _ => none

/-- `Constraint.references()`: the bound values that are value
references. -/
def constraintRefs : MaybeNode → MaybeNode → List String :=
  fun mn mx =>
    (match mn with
      | .node (.valueReference n) => [n]
      | _ => []) ++
    (match mx with
      | .node (.valueReference n) => [n]
      | _ => [])

/-! The `references()` method.  `Module` does not define it (the only
sema class without one), hence the `Option`. -/

mutual
def references : SemaNode → Option (List String)
  | .module _ _ => none
  | .typeAssignment _ td => references td
  | .valueAssignment _ td v =>
    match reference_name td with
    | none => none
    | some n =>
      match v with
      | .node (.valueReference m) => some [n, m]
      | _ => some [n]
  | .valueReference _ => some []
  | .choiceType _ comps => referencesList comps
  | .sequenceType _ comps => referencesList comps
  | .sequenceOfType _ td => references td
  | .setOfType _ td => references td
  | .taggedType _ _ _ td => references td
  | .simpleType n cst =>
    match cst with
    | none => some [n]
    | some (ConstraintNode.mk mn mx) => some ([n] ++ constraintRefs mn mx)
  | .userDefinedType n => some [n]
  | .componentType _ _ _ td => references td
  | .namedType _ td => references td
  | .valueListType _ _ => some []
  | .bitStringType _ _ => some []
  | .namedValue _ _ => some []

def referencesList : List SemaNode → Option (List String)
  | [] => some []
  | d :: ds =>
    match references d, referencesList ds with
    | some r, some rs => some (r ++ rs)
    | _, _ => none
end

/-- The duck-typed functions handed to `topological_sort` when sorting
`Module.declarations` (total wrappers; the claims using them only ever
apply them to nodes where the Python attribute exists). -/
def declName (d : SemaNode) : String := (reference_name d).getD ""

def declRefs (d : SemaNode) : List String := (references d).getD []

/-! ## `Module.user_types` and `Module.resolve_type_decl` -/

/-- `dict` insertion for the user-types index. -/
def utInsert (m : List (String × SemaNode)) (k : String) (v : SemaNode) :
    List (String × SemaNode) :=
  if m.any (fun p => p.1 = k) then m.map (fun p => if p.1 = k then (k, v) else p)
  else m ++ [(k, v)]

/-- `Module.user_types()` (the first-call computation; the memo cache is
write-once so the method is modelled as this pure function of the
declarations).  NOTE the source iterates over ALL declarations and reads
`user_defined.type_name` / `user_defined.type_decl` on each of them --
there is no TypeAssignment filter in sema.py lines 113-119. -/
def user_types (declarations : List SemaNode) :
    Except String (List (String × SemaNode)) :=
  declarations.foldlM (fun m user_defined =>
    match type_nameAttr user_defined, type_declAttr user_defined with
    | some n, some v => pure (utInsert m n v)
    | _, _ => throw "AttributeError") []

/-- Dictionary lookup in the user-types index (`user_types[name]`,
`none` = KeyError). -/
def utLookup : List (String × SemaNode) → String → Option SemaNode
  | [], _ => none
  | p :: m, k => if p.1 = k then some p.2 else utLookup m k

/-- Outcome of `Module.resolve_type_decl`: the structural declaration, a
KeyError naming the missing type, or -- since the Python recursion has
no cycle guard -- non-termination, visible as running out of fuel at
every fuel value. -/
inductive ResolveResult where
  | ok (decl : SemaNode)
  | keyError (name : String)
  | outOfFuel

/-- `Module.resolve_type_decl(type_decl)`, with fuel making the
unbounded recursion of the source explicit: the Python call returns a
value iff some fuel suffices. -/
def resolve_type_decl (uts : List (String × SemaNode)) :
    Nat → SemaNode → ResolveResult
  | 0, _ => .outOfFuel
  | fuel + 1, type_decl =>
    match type_decl with
    | .userDefinedType n =>
      match utLookup uts n with
      | some d => resolve_type_decl uts fuel d
      | none => .keyError n
    | d => .ok d

/-- Is the declaration a forward reference (`UserDefinedType`)? -/
def isUserDefined : SemaNode → Bool
  | .userDefinedType _ => true
  | _ => false

/-- Following exactly `k` forward-reference hops through the index. -/
def chainIter (uts : List (String × SemaNode)) : Nat → SemaNode → Option SemaNode
  | 0, d => some d
  | k + 1, d =>
    match d with
    | .userDefinedType n =>
      match utLookup uts n with
      | some d' => chainIter uts k d'
      | none => none
    | _ => none

/-- The tags `_create_sema_node` dispatches on. -/
def recognizedTags : List String :=
  ["ModuleDefinition", "TypeAssignment", "ValueAssignment", "ValueReference",
   "ComponentType", "NamedType", "ValueListType", "BitStringType", "NamedValue",
   "Type", "SimpleType", "ReferencedType", "TaggedType", "SequenceType",
   "ChoiceType", "SequenceOfType", "SetOfType"]

/-- A two-hop user-types index: `A ::= B`, `B ::= SEQUENCE {...}`. -/
def twoHopIndex : List (String × SemaNode) :=
  [("A", .userDefinedType "B"),
   ("B", .sequenceType "SEQUENCE"
     [.componentType "f" false none (.simpleType "INTEGER" none)])]

/-- The raw dependency relation of a collection of entities: the entity
whose reference name is `n` lists `m` among its references. -/
def declEdge {α : Type} (refName : α → String) (refs : α → List String)
    (decls : List α) (n m : String) : Prop :=
  ∃ d ∈ decls, refName d = n ∧ m ∈ refs d

/-- A `ComponentType` token whose first element is a bare `Type`:
an unnamed member. -/
def unnamedComponentTok : Token :=
  .node "ComponentType" [.node "Type" [.node "SimpleType" [.lit "INTEGER"]]]

/-- `SEQUENCE` with two unnamed components. -/
def sequenceTwoUnnamedTok : Token :=
  .node "SequenceType" [.lit "SEQUENCE", .group [unnamedComponentTok, unnamedComponentTok]]

/-- A module (named `name`) with a single type assignment whose
`SEQUENCE` has one unnamed component. -/
def moduleOneUnnamedTok (name : String) : Token :=
  .node "ModuleDefinition"
    [.node "ModuleReference" [.lit name], .lit "DEFINITIONS", .lit "::=", .lit "BEGIN",
     .node "ModuleBody"
       [.node "TypeAssignment" [.lit "T", .lit "::=",
         .node "Type" [.node "SequenceType" [.lit "SEQUENCE", .group [unnamedComponentTok]]]]],
     .lit "END"]

/-! ### Basic lemmas about the graph operations -/

theorem has_predecessor_iff {g : Graph} {n : String} :
    has_predecessor g n = true ↔ ∃ p ∈ g, n ∈ p.2 := by
  simp [has_predecessor, List.any_eq_true]

theorem has_predecessor_false_iff {g : Graph} {n : String} :
    has_predecessor g n = false ↔ ∀ p ∈ g, n ∉ p.2 := by
  rw [← Bool.not_eq_true, has_predecessor_iff]
  simp

theorem has_predecessor_mono {g' g : Graph} (hs : g'.Sublist g) {n : String}
    (h : has_predecessor g n = false) : has_predecessor g' n = false := by
  rw [has_predecessor_false_iff] at h ⊢
  exact fun p hp => h p (hs.subset hp)

theorem mem_keysOf {g : Graph} {k : String} :
    k ∈ keysOf g ↔ ∃ v, (k, v) ∈ g := by
  constructor
  · intro h
    rcases List.mem_map.1 h with ⟨p, hp, hpk⟩
    exact ⟨p.2, by simpa [← hpk] using hp⟩
  · rintro ⟨v, hv⟩
    exact List.mem_map.2 ⟨(k, v), hv, rfl⟩

theorem keysOf_append {g₁ g₂ : Graph} :
    keysOf (g₁ ++ g₂) = keysOf g₁ ++ keysOf g₂ := by
  simp [keysOf]

theorem popKey_of_not_mem {g : Graph} {k : String} (h : k ∉ keysOf g) :
    popKey g k = ([], g) := by
  induction g with
  | nil => rfl
  | cons p g ih =>
    have hk : ¬ p.1 = k := by
      intro he
      exact h (by simp [keysOf, he])
    have h' : k ∉ keysOf g := fun hm => h (by simp [keysOf] at hm ⊢; tauto)
    simp [popKey, hk, ih h']

theorem popKey_of_mem {g : Graph} {k : String} (h : k ∈ keysOf g) :
    ∃ l₁ l₂, g = l₁ ++ (k, (popKey g k).1) :: l₂ ∧
      (popKey g k).2 = l₁ ++ l₂ ∧ k ∉ keysOf l₁ := by
  induction g with
  | nil => simp [keysOf] at h
  | cons p g ih =>
    by_cases hk : p.1 = k
    · refine ⟨[], g, ?_, ?_, ?_⟩
      · simp [popKey, hk]
        exact (Prod.ext_iff.2 ⟨hk, rfl⟩ : p = (k, p.2))
      · simp [popKey, hk]
      · simp [keysOf]
    · have h' : k ∈ keysOf g := by
        rcases (by simpa [keysOf] using h) with h1 | h2
        · exact absurd h1.symm hk
        · simpa [keysOf] using h2
      rcases ih h' with ⟨l₁, l₂, he, he2, hnm⟩
      refine ⟨p :: l₁, l₂, ?_, ?_, ?_⟩
      · simp [popKey, hk]
        exact he
      · simp [popKey, hk, he2]
      · intro hm
        rcases (by simpa [keysOf] using hm : k = p.1 ∨ k ∈ keysOf l₁) with h1 | h2
        · exact hk h1.symm
        · exact hnm h2

theorem lookupDeps_of_not_mem {g : Graph} {k : String} (h : k ∉ keysOf g) :
    lookupDeps g k = [] := by
  induction g with
  | nil => rfl
  | cons p g ih =>
    have hk : ¬ p.1 = k := fun he => h (by simp [keysOf, he])
    have h' : k ∉ keysOf g := fun hm => h (by simp [keysOf] at hm ⊢; tauto)
    simp [lookupDeps, hk, ih h']

theorem mem_keysOf_of_lookupDeps_ne {g : Graph} {k : String}
    (h : lookupDeps g k ≠ []) : k ∈ keysOf g := by
  by_contra hn
  exact h (lookupDeps_of_not_mem hn)

theorem lookupDeps_eq_of_mem {g : Graph} {k : String} {v : List String}
    (hn : (keysOf g).Nodup) (h : (k, v) ∈ g) : lookupDeps g k = v := by
  induction g with
  | nil => simp at h
  | cons p g ih =>
    have hn2 : (p.1 :: keysOf g).Nodup := by simpa [keysOf] using hn
    rcases List.mem_cons.1 h with he | hm
    · simp [lookupDeps, ← he]
    · have hpk : ¬ p.1 = k := by
        intro hpe
        have hkm : k ∈ keysOf g := mem_keysOf.2 ⟨v, hm⟩
        exact (List.nodup_cons.1 hn2).1 (hpe ▸ hkm)
      simp [lookupDeps, hpk, ih (List.nodup_cons.1 hn2).2 hm]

theorem entry_mem_of_mem_keysOf {g : Graph} {k : String} (h : k ∈ keysOf g) :
    (k, lookupDeps g k) ∈ g := by
  induction g with
  | nil => simp [keysOf] at h
  | cons p g ih =>
    by_cases hk : p.1 = k
    · have hp : p = (k, p.2) := Prod.ext_iff.2 ⟨hk, rfl⟩
      simp [lookupDeps, hk]
      left
      exact hp.symm ▸ rfl
    · have h' : k ∈ keysOf g := by
        rcases (by simpa [keysOf] using h) with h1 | h2
        · exact absurd h1.symm hk
        · simpa [keysOf] using h2
      simp [lookupDeps, hk]
      exact Or.inr (ih h')

/-- An edge's source is always a key. -/
theorem depEdge_mem_keysOf {g : Graph} {a b : String} (h : depEdge g a b) :
    a ∈ keysOf g :=
  mem_keysOf_of_lookupDeps_ne (fun he => by simp [depEdge, he] at h)

/-- A sublist of a nodup-keyed graph answers lookups like the full graph
does (on its own keys). -/
theorem lookupDeps_sublist_eq {g g₀ : Graph} (hs : g.Sublist g₀)
    (hn : (keysOf g₀).Nodup) {k : String} (hk : k ∈ keysOf g) :
    lookupDeps g₀ k = lookupDeps g k := by
  have hgn : (keysOf g).Nodup := (hs.map Prod.fst).nodup hn
  have hment : (k, lookupDeps g k) ∈ g := entry_mem_of_mem_keysOf hk
  exact lookupDeps_eq_of_mem hn (hs.subset hment)

/-! ### Lemmas about `buildGraph` -/

theorem anyKey_iff {g : Graph} {k : String} :
    (g.any (fun p => p.1 = k)) = true ↔ k ∈ keysOf g := by
  simp [List.any_eq_true, keysOf, List.mem_map]

theorem keysOf_dictInsert_of_mem {g : Graph} {k : String} (v : List String)
    (h : k ∈ keysOf g) : keysOf (dictInsert g k v) = keysOf g := by
  rw [dictInsert, if_pos (anyKey_iff.2 h)]
  unfold keysOf
  rw [List.map_map]
  refine List.map_congr_left ?_
  intro p _
  by_cases hp : p.1 = k
  · simp [hp]
  · simp [hp]

theorem keysOf_dictInsert_of_not_mem {g : Graph} {k : String} (v : List String)
    (h : k ∉ keysOf g) : keysOf (dictInsert g k v) = keysOf g ++ [k] := by
  rw [dictInsert, if_neg (fun hc => h (anyKey_iff.1 hc))]
  simp [keysOf]

theorem keysOf_dictInsert_nodup {g : Graph} (hn : (keysOf g).Nodup)
    (k : String) (v : List String) : (keysOf (dictInsert g k v)).Nodup := by
  by_cases h : k ∈ keysOf g
  · rw [keysOf_dictInsert_of_mem v h]; exact hn
  · rw [keysOf_dictInsert_of_not_mem v h]
    simpa [List.nodup_append] using ⟨hn, fun hc => h hc⟩

theorem dictInsert_values_nodup {g : Graph} (hv : ∀ p ∈ g, p.2.Nodup)
    {k : String} {v : List String} (hvn : v.Nodup) :
    ∀ p ∈ dictInsert g k v, p.2.Nodup := by
  intro p hp
  rw [dictInsert] at hp
  by_cases h : (g.any (fun p => p.1 = k)) = true
  · rw [if_pos h] at hp
    rcases List.mem_map.1 hp with ⟨q, hq, hqe⟩
    by_cases hqk : q.1 = k
    · rw [if_pos hqk] at hqe
      rw [← hqe]
      exact hvn
    · rw [if_neg hqk] at hqe
      exact hqe ▸ hv q hq
  · rw [if_neg h] at hp
    rcases List.mem_append.1 hp with h1 | h2
    · exact hv p h1
    · rw [List.mem_singleton.1 h2]
      exact hvn

theorem buildGraphAux_keys_nodup (refName : α → String) (refs : α → List String) :
    ∀ (decls : List α) (g : Graph), (keysOf g).Nodup →
      (keysOf (decls.foldl (fun g d => dictInsert g (refName d) (refs d).dedup) g)).Nodup := by
  intro decls
  induction decls with
  | nil => intro g hg; exact hg
  | cons d ds ih =>
    intro g hg
    exact ih _ (keysOf_dictInsert_nodup hg _ _)

theorem buildGraph_keys_nodup (refName : α → String) (refs : α → List String)
    (decls : List α) : (keysOf (buildGraph refName refs decls)).Nodup := by
  exact buildGraphAux_keys_nodup refName refs decls [] (by simp [keysOf])

theorem buildGraphAux_values_nodup (refName : α → String) (refs : α → List String) :
    ∀ (decls : List α) (g : Graph), (∀ p ∈ g, p.2.Nodup) →
      ∀ p ∈ decls.foldl (fun g d => dictInsert g (refName d) (refs d).dedup) g,
        p.2.Nodup := by
  intro decls
  induction decls with
  | nil => intro g hg; exact hg
  | cons d ds ih =>
    intro g hg
    exact ih _ (dictInsert_values_nodup hg (List.nodup_dedup _))

theorem buildGraph_values_nodup (refName : α → String) (refs : α → List String)
    (decls : List α) : ∀ p ∈ buildGraph refName refs decls, p.2.Nodup := by
  exact buildGraphAux_values_nodup refName refs decls [] (by simp)

/-- With pairwise-distinct reference names, the dictionary built by
`topological_sort` is just the list of (name, deduplicated references)
pairs in declaration order. -/
theorem buildGraph_eq_map (refName : α → String) (refs : α → List String)
    {decls : List α} (h : (decls.map refName).Nodup) :
    buildGraph refName refs decls =
      decls.map (fun d => (refName d, (refs d).dedup)) := by
  suffices haux : ∀ (ds : List α) (g : Graph), (ds.map refName).Nodup →
      (∀ d ∈ ds, refName d ∉ keysOf g) →
      ds.foldl (fun g d => dictInsert g (refName d) (refs d).dedup) g =
        g ++ ds.map (fun d => (refName d, (refs d).dedup)) by
    simpa using haux decls [] h (by simp [keysOf])
  intro ds
  induction ds with
  | nil => intro g _ _; simp
  | cons d rest ih =>
    intro g hnd hfresh
    have hd : refName d ∉ keysOf g := hfresh d (List.mem_cons_self d rest)
    have hins : dictInsert g (refName d) (refs d).dedup =
        g ++ [(refName d, (refs d).dedup)] := by
      rw [dictInsert, if_neg (fun hc => hd (anyKey_iff.1 hc))]
    have hnd2 : (rest.map refName).Nodup := (List.nodup_cons.1 (by simpa using hnd)).2
    have hd2 : refName d ∉ rest.map refName := (List.nodup_cons.1 (by simpa using hnd)).1
    have hfresh2 : ∀ e ∈ rest, refName e ∉ keysOf (g ++ [(refName d, (refs d).dedup)]) := by
      intro e he hmem
      rw [keysOf_append] at hmem
      rcases List.mem_append.1 hmem with h1 | h2
      · exact hfresh e (List.mem_cons_of_mem d he) h1
      · have : refName e = refName d := by simpa [keysOf] using h2
        exact hd2 (this ▸ List.mem_map_of_mem refName he)
    simp only [List.foldl_cons, hins]
    rw [ih _ hnd2 hfresh2]
    simp

theorem keysOf_buildGraph_of_nodup (refName : α → String) (refs : α → List String)
    {decls : List α} (h : (decls.map refName).Nodup) :
    keysOf (buildGraph refName refs decls) = decls.map refName := by
  rw [buildGraph_eq_map refName refs h]
  simp [keysOf, List.map_map]

theorem lookupDeps_buildGraph_of_nodup (refName : α → String) (refs : α → List String)
    {decls : List α} (h : (decls.map refName).Nodup) {d : α} (hd : d ∈ decls) :
    lookupDeps (buildGraph refName refs decls) (refName d) = (refs d).dedup := by
  refine lookupDeps_eq_of_mem (buildGraph_keys_nodup refName refs decls) ?_
  rw [buildGraph_eq_map refName refs h]
  exact List.mem_map_of_mem _ hd

/-! ### The while-loop invariant

`g₀` is the initially built graph.  The invariant captures, at every
iteration of the loop: the graph only shrinks (entries are removed
whole, never edited); every name on the roots stack or already emitted
is free (has no predecessor) in the current graph; no name is stacked
or emitted twice; every original key is either still in the graph or
already emitted; every free key is on the stack; and every emitted
name's member dependencies are either still in the graph (hence will be
prepended in front of it) or already in front of it. -/

structure SortInv (g₀ g : Graph) (roots order : List String) : Prop where
  sub : g.Sublist g₀
  freeR : ∀ n ∈ roots, has_predecessor g n = false
  freeO : ∀ n ∈ order, has_predecessor g n = false
  nodupRO : (roots ++ order).Nodup
  cover : ∀ k ∈ keysOf g₀, k ∈ keysOf g ∨ k ∈ order
  freeKey : ∀ k ∈ keysOf g, has_predecessor g k = false → k ∈ roots
  ordSplit : ∀ o₁ a o₂, order = o₁ ++ a :: o₂ →
    ∀ b ∈ lookupDeps g₀ a, b ∈ keysOf g₀ → b ∈ keysOf g ∨ b ∈ o₁

theorem nodup_root_parts {rs order : List String} {root : String}
    (h : ((rs ++ [root]) ++ order).Nodup) : root ∉ order ∧ root ∉ rs := by
  rw [List.append_assoc] at h
  have h2 := (List.nodup_append.1 h).2.1
  have hd := (List.nodup_append.1 h).2.2
  constructor
  · exact (List.nodup_cons.1 (by simpa using h2)).1
  · intro hc
    exact hd hc (by simp)

theorem sortLoop_step_inv (g₀ : Graph) (hk0 : (keysOf g₀).Nodup)
    (hv0 : ∀ p ∈ g₀, p.2.Nodup) (g : Graph) (rs order : List String) (root : String)
    (hinv : SortInv g₀ g (rs ++ [root]) order) :
    SortInv g₀ (popKey g root).2
      (rs ++ (popKey g root).1.filter (fun s => !has_predecessor (popKey g root).2 s))
      (root :: order) ∧
    graphMeasure (popKey g root).2
      (rs ++ (popKey g root).1.filter (fun s => !has_predecessor (popKey g root).2 s)) <
      graphMeasure g (rs ++ [root]) := by
  have hroot_mem : root ∈ rs ++ [root] := by simp
  have hfree_root : has_predecessor g root = false := hinv.freeR root hroot_mem
  have hgk : (keysOf g).Nodup := (hinv.sub.map Prod.fst).nodup hk0
  have hroot_not_order : root ∉ order := (nodup_root_parts hinv.nodupRO).1
  by_cases hrk : root ∈ keysOf g
  case neg =>
    -- `graph.pop` misses: nothing changes except the stack shrinking.
    have hpop : popKey g root = ([], g) := popKey_of_not_mem hrk
    rw [hpop]
    simp only [List.filter_nil, List.append_nil]
    constructor
    · refine ⟨hinv.sub, ?_, ?_, ?_, ?_, ?_, ?_⟩
      · exact fun n hn => hinv.freeR n (List.mem_append_left _ hn)
      · intro n hn
        rcases List.mem_cons.1 hn with rfl | hn'
        · exact hfree_root
        · exact hinv.freeO n hn'
      · have h0 := hinv.nodupRO
        rwa [List.append_assoc] at h0
      · intro k hk
        rcases hinv.cover k hk with h1 | h2
        · exact Or.inl h1
        · exact Or.inr (List.mem_cons_of_mem _ h2)
      · intro k hk hf
        have hmem := hinv.freeKey k hk hf
        rcases List.mem_append.1 hmem with h1 | h2
        · exact h1
        · exact absurd (List.mem_singleton.1 h2) (fun he => hrk (he ▸ hk))
      · intro o₁ a o₂ hsp b hb hbk
        cases o₁ with
        | nil =>
          obtain ⟨ha, ho⟩ := List.cons.inj hsp
          subst ha
          exfalso
          have hk0m : root ∈ keysOf g₀ := mem_keysOf_of_lookupDeps_ne (fun he => by
            rw [he] at hb
            exact absurd hb (List.not_mem_nil b))
          rcases hinv.cover root hk0m with h1 | h2
          · exact hrk h1
          · exact hroot_not_order h2
        | cons x o₁' =>
          obtain ⟨hx, hord⟩ := List.cons.inj hsp
          rcases hinv.ordSplit o₁' a o₂ hord b hb hbk with h1 | h2
          · exact Or.inl h1
          · exact Or.inr (List.mem_cons_of_mem _ h2)
    · simp [graphMeasure]
  case pos =>
    rcases popKey_of_mem hrk with ⟨l₁, l₂, hg, hg', hl₁⟩
    set v := (popKey g root).1 with hv
    set g' := (popKey g root).2 with hg'def
    have hentry : (root, v) ∈ g := by rw [hg]; simp
    have hventry : ((root, v) : String × List String) ∈ g₀ := hinv.sub.subset hentry
    have hvnodup : v.Nodup := hv0 (root, v) hventry
    have hsub' : g'.Sublist g := by
      rw [hg', hg]
      exact (List.sublist_cons_self _ _).append_left l₁
    have hpred_v : ∀ b ∈ v, has_predecessor g b = true := fun b hb =>
      has_predecessor_iff.2 ⟨(root, v), hentry, hb⟩
    have hroot_not_v : root ∉ v := fun hc => by
      have hx := hpred_v root hc
      rw [hfree_root] at hx
      exact absurd hx (by simp)
    have hv_not_ro : ∀ b ∈ v, b ∉ rs ++ [root] ++ order := by
      intro b hb hmem
      have htrue := hpred_v b hb
      rcases List.mem_append.1 hmem with h1 | h2
      · rw [hinv.freeR b h1] at htrue
        exact absurd htrue (by simp)
      · rw [hinv.freeO b h2] at htrue
        exact absurd htrue (by simp)
    have hkeys_g : keysOf g = keysOf l₁ ++ root :: keysOf l₂ := by
      rw [hg, keysOf_append]
      rfl
    have hkeys_g' : keysOf g' = keysOf l₁ ++ keysOf l₂ := by
      rw [hg', keysOf_append]
    have hroot_not_l₂ : root ∉ keysOf l₂ := by
      have hx := hkeys_g ▸ hgk
      have h2 := (List.nodup_append.1 hx).2.1
      exact (List.nodup_cons.1 h2).1
    have hroot_not_g' : root ∉ keysOf g' := by
      rw [hkeys_g']
      intro hc
      rcases List.mem_append.1 hc with h1 | h2
      · exact hl₁ h1
      · exact hroot_not_l₂ h2
    have hkeys'_of : ∀ k ∈ keysOf g, k ≠ root → k ∈ keysOf g' := by
      intro k hk hne
      rw [hkeys_g] at hk
      rw [hkeys_g']
      rcases List.mem_append.1 hk with h1 | h2
      · exact List.mem_append_left _ h1
      · rcases List.mem_cons.1 h2 with h3 | h4
        · exact absurd h3 hne
        · exact List.mem_append_right _ h4
    have hkeys'_sub : ∀ k ∈ keysOf g', k ∈ keysOf g := fun k hk =>
      (hsub'.map Prod.fst).subset hk
    have hmem_g_cases : ∀ p ∈ g, p ∈ g' ∨ p = (root, v) := by
      intro p hp
      rw [hg] at hp
      rw [hg']
      rcases List.mem_append.1 hp with h1 | h2
      · exact Or.inl (List.mem_append_left _ h1)
      · rcases List.mem_cons.1 h2 with h3 | h4
        · exact Or.inr h3
        · exact Or.inl (List.mem_append_right _ h4)
    have hlookup_g_root : lookupDeps g root = v := lookupDeps_eq_of_mem hgk hentry
    set newRoots := v.filter (fun s => !has_predecessor g' s) with hnr
    have hnewRoots_mem : ∀ b ∈ newRoots, b ∈ v ∧ has_predecessor g' b = false := by
      intro b hb
      have hx := List.mem_filter.1 hb
      exact ⟨hx.1, by simpa using hx.2⟩
    constructor
    · refine ⟨hsub'.trans hinv.sub, ?_, ?_, ?_, ?_, ?_, ?_⟩
      · intro n hn
        rcases List.mem_append.1 hn with h1 | h2
        · exact has_predecessor_mono hsub'
            (hinv.freeR n (List.mem_append_left [root] h1))
        · exact (hnewRoots_mem n h2).2
      · intro n hn
        rcases List.mem_cons.1 hn with rfl | h2
        · exact has_predecessor_mono hsub' hfree_root
        · exact has_predecessor_mono hsub' (hinv.freeO n h2)
      · -- Nodup (rs ++ newRoots ++ root :: order)
        have hold := hinv.nodupRO
        have hp1 : (newRoots ++ root :: order).Perm (root :: order ++ newRoots) :=
          List.perm_append_comm
        have hperm : (rs ++ newRoots ++ root :: order).Perm
            ((rs ++ [root] ++ order) ++ newRoots) := by
          rw [List.append_assoc]
          have he : (rs ++ [root] ++ order) ++ newRoots =
              rs ++ (root :: order ++ newRoots) := by simp
          rw [he]
          exact hp1.append_left rs
        refine hperm.nodup_iff.2 (List.Nodup.append hold (hvnodup.filter _) ?_)
        intro b hb1 hb2
        exact hv_not_ro b (hnewRoots_mem b hb2).1 hb1
      · intro k hk
        rcases hinv.cover k hk with h1 | h2
        · by_cases hkr : k = root
          · exact Or.inr (hkr ▸ List.mem_cons_self _ _)
          · exact Or.inl (hkeys'_of k h1 hkr)
        · exact Or.inr (List.mem_cons_of_mem _ h2)
      · intro k hk hf
        by_cases hgp : has_predecessor g k = true
        · -- the only predecessor entry must have been root's, so k ∈ newRoots
          rcases has_predecessor_iff.1 hgp with ⟨p, hp, hkp⟩
          rcases hmem_g_cases p hp with h1 | h2
          · rw [has_predecessor_false_iff] at hf
            exact absurd hkp (hf p h1)
          · refine List.mem_append_right _ (List.mem_filter.2 ⟨?_, by simpa using hf⟩)
            rw [h2] at hkp
            exact hkp
        · have hgf : has_predecessor g k = false := Bool.eq_false_iff.2 hgp
          have hmem := hinv.freeKey k (hkeys'_sub k hk) hgf
          rcases List.mem_append.1 hmem with h1 | h2
          · exact List.mem_append_left _ h1
          · exact absurd (List.mem_singleton.1 h2)
              (fun he => hroot_not_g' (he ▸ hk))
      · intro o₁ a o₂ hsp b hb hbk
        cases o₁ with
        | nil =>
          obtain ⟨ha, ho⟩ := List.cons.inj hsp
          subst ha
          have hlook : lookupDeps g₀ root = v := by
            rw [lookupDeps_sublist_eq hinv.sub hk0 hrk, hlookup_g_root]
          rw [hlook] at hb
          have hbg : b ∈ keysOf g := by
            rcases hinv.cover b hbk with h1 | h2
            · exact h1
            · exact absurd (List.mem_append_right (rs ++ [root]) h2)
                (hv_not_ro b hb)
          exact Or.inl (hkeys'_of b hbg (fun he => hroot_not_v (he ▸ hb)))
        | cons x o₁' =>
          obtain ⟨hx, hord⟩ := List.cons.inj hsp
          rcases hinv.ordSplit o₁' a o₂ hord b hb hbk with h1 | h2
          · by_cases hbr : b = root
            · exact Or.inr (hbr ▸ hx ▸ List.mem_cons_self _ _)
            · exact Or.inl (hkeys'_of b h1 hbr)
          · exact Or.inr (List.mem_cons_of_mem _ h2)
    · -- the measure strictly decreases
      have hsum : ((g.map (fun p => p.2.length + 1)).sum) =
          ((l₁.map (fun p => p.2.length + 1)).sum) + (v.length + 1) +
          ((l₂.map (fun p => p.2.length + 1)).sum) := by
        rw [hg]
        simp [List.sum_append]
        omega
      have hsum' : ((g'.map (fun p => p.2.length + 1)).sum) =
          ((l₁.map (fun p => p.2.length + 1)).sum) +
          ((l₂.map (fun p => p.2.length + 1)).sum) := by
        rw [hg']
        simp [List.sum_append]
      have hfl : newRoots.length ≤ v.length := List.length_filter_le _ _
      simp only [graphMeasure, List.length_append, List.length_cons, hsum, hsum',
        List.length_singleton]
      omega

/-- Running the loop with enough fuel always completes, preserving the
invariant, with an empty stack at the end. -/
theorem sortLoop_run (g₀ : Graph) (hk0 : (keysOf g₀).Nodup)
    (hv0 : ∀ p ∈ g₀, p.2.Nodup) :
    ∀ (fuel : Nat) (g : Graph) (roots order : List String),
      graphMeasure g roots < fuel → SortInv g₀ g roots order →
      ∃ gf of, sortLoop fuel g roots order = some (gf, of) ∧ SortInv g₀ gf [] of := by
  intro fuel
  induction fuel with
  | zero => intro g roots order hm _; exact absurd hm (by omega)
  | succ fuel ih =>
    intro g roots order hm hinv
    rcases List.eq_nil_or_concat roots with rfl | ⟨rs, root, hconcat⟩
    · exact ⟨g, order, by simp [sortLoop], hinv⟩
    · rw [List.concat_eq_append] at hconcat
      subst hconcat
      have hstep := sortLoop_step_inv g₀ hk0 hv0 g rs order root hinv
      have hm' : graphMeasure (popKey g root).2
          (rs ++ (popKey g root).1.filter
            (fun s => !has_predecessor (popKey g root).2 s)) < fuel := by
        have hd := hstep.2
        omega
      rcases ih _ _ _ hm' hstep.1 with ⟨gf, of, hrun, hfinv⟩
      refine ⟨gf, of, ?_, hfinv⟩
      have hunfold : sortLoop (fuel + 1) g (rs ++ [root]) order =
          sortLoop fuel (popKey g root).2
            (rs ++ (popKey g root).1.filter
              (fun s => !has_predecessor (popKey g root).2 s))
            (root :: order) := by
        simp [sortLoop, List.getLast?_concat, List.dropLast_concat]
      rw [hunfold, hrun]

/-- The invariant holds when the loop starts. -/
theorem sortInv_init (g₀ : Graph) (hk0 : (keysOf g₀).Nodup) :
    SortInv g₀ g₀ ((keysOf g₀).filter (fun n => !has_predecessor g₀ n)) [] := by
  refine ⟨List.Sublist.refl _, ?_, ?_, ?_, ?_, ?_, ?_⟩
  · intro n hn
    simpa using (List.mem_filter.1 hn).2
  · simp
  · simpa using hk0.filter _
  · intro k hk
    exact Or.inl hk
  · intro k hk hf
    exact List.mem_filter.2 ⟨hk, by simp [hf]⟩
  · intro o₁ a o₂ hsp
    exact absurd hsp (by simp)

/-! ### What the final states imply -/

/-- In a nodup list split as `o₁ ++ a :: o₂`, everything in `o₁` has a
strictly smaller index than `a`. -/
theorem indexOf_front_lt {o₁ o₂ : List String} {a b : String}
    (hnd : (o₁ ++ a :: o₂).Nodup) (hb : b ∈ o₁) :
    (o₁ ++ a :: o₂).indexOf b < (o₁ ++ a :: o₂).indexOf a := by
  have hna : a ∉ o₁ := by
    intro hc
    exact (List.nodup_append.1 hnd).2.2 hc (List.mem_cons_self _ _)
  have hb_idx : (o₁ ++ a :: o₂).indexOf b = o₁.indexOf b :=
    List.indexOf_append_of_mem hb
  have ha_idx : (o₁ ++ a :: o₂).indexOf a = o₁.length := by
    rw [List.indexOf_append_of_not_mem hna, List.indexOf_cons_self]
    omega
  rw [hb_idx, ha_idx]
  exact List.indexOf_lt_length.2 hb

/-- After a successful run (empty final graph), member-to-member
dependencies appear strictly earlier in the computed order. -/
theorem final_rank {g₀ : Graph} {of : List String}
    (hfinv : SortInv g₀ [] [] of) {a b : String}
    (hab : depEdge g₀ a b) (hbk : b ∈ keysOf g₀) :
    of.indexOf b < of.indexOf a := by
  have hnd : of.Nodup := by simpa using hfinv.nodupRO
  have hak : a ∈ keysOf g₀ := depEdge_mem_keysOf hab
  have ha_of : a ∈ of := by
    rcases hfinv.cover a hak with h | h
    · exact absurd h (by simp [keysOf])
    · exact h
  obtain ⟨o₁, o₂, hsp⟩ := List.append_of_mem ha_of
  rcases hfinv.ordSplit o₁ a o₂ hsp b hab hbk with h | h
  · exact absurd h (by simp [keysOf])
  · rw [hsp]
    exact indexOf_front_lt (hsp ▸ hnd) h

/-- A successful run implies the original graph is acyclic. -/
theorem no_cycle_of_success {g₀ : Graph} {of : List String}
    (hfinv : SortInv g₀ [] [] of) : ¬ HasCycle g₀ := by
  rintro ⟨n, hcyc⟩
  have hrank : ∀ x y, Relation.TransGen (depEdge g₀) x y →
      y ∈ keysOf g₀ → of.indexOf y < of.indexOf x := by
    intro x y h
    induction h with
    | single h1 =>
      intro hy
      exact final_rank hfinv h1 hy
    | tail h1 h2 ih =>
      intro hy
      have hbk := depEdge_mem_keysOf h2
      exact lt_trans (final_rank hfinv h2 hy) (ih hbk)
  have hn : n ∈ keysOf g₀ := by
    rcases Relation.TransGen.head'_iff.1 hcyc with ⟨m, hm, _⟩
    exact depEdge_mem_keysOf hm
  exact absurd (hrank n n hcyc hn) (lt_irrefl _)

/-- In a failed run, every remaining key is depended upon by some
remaining key. -/
theorem failure_pred {g₀ gf : Graph} {of : List String} (hk0 : (keysOf g₀).Nodup)
    (hfinv : SortInv g₀ gf [] of) :
    ∀ k ∈ keysOf gf, ∃ x ∈ keysOf gf, depEdge gf x k := by
  intro k hk
  have hpred : has_predecessor gf k = true := by
    by_contra h
    have hf : has_predecessor gf k = false := Bool.eq_false_iff.2 h
    exact absurd (hfinv.freeKey k hk hf) (List.not_mem_nil k)
  rcases has_predecessor_iff.1 hpred with ⟨p, hp, hkp⟩
  have hnd : (keysOf gf).Nodup := (hfinv.sub.map Prod.fst).nodup hk0
  refine ⟨p.1, mem_keysOf.2 ⟨p.2, by simpa using hp⟩, ?_⟩
  rw [depEdge, lookupDeps_eq_of_mem hnd (show (p.1, p.2) ∈ gf by simpa using hp)]
  exact hkp

/-- Edges of a sublist graph are edges of the full nodup-keyed graph. -/
theorem depEdge_of_sublist {gf g₀ : Graph} (hs : gf.Sublist g₀)
    (hk0 : (keysOf g₀).Nodup) {a b : String} (h : depEdge gf a b) :
    depEdge g₀ a b := by
  have hak : a ∈ keysOf gf := depEdge_mem_keysOf h
  rw [depEdge, lookupDeps_sublist_eq hs hk0 hak]
  exact h

/-- Pigeonhole: if every key of a (nonempty) graph has a predecessor key,
the graph has a cycle. -/
theorem cycle_of_all_pred (g : Graph) (hne : keysOf g ≠ [])
    (h : ∀ k ∈ keysOf g, ∃ x ∈ keysOf g, depEdge g x k) : HasCycle g := by
  classical
  have hstep : ∀ s : {x // x ∈ (keysOf g).toFinset},
      ∃ t : {x // x ∈ (keysOf g).toFinset}, depEdge g t.val s.val := by
    intro s
    rcases h s.val (List.mem_toFinset.1 s.2) with ⟨x, hx, he⟩
    exact ⟨⟨x, List.mem_toFinset.2 hx⟩, he⟩
  choose f hf using hstep
  obtain ⟨k₀, hk₀⟩ : ∃ k, k ∈ (keysOf g).toFinset := by
    rcases List.exists_mem_of_ne_nil _ hne with ⟨k, hk⟩
    exact ⟨k, List.mem_toFinset.2 hk⟩
  have hchain : ∀ i d, 1 ≤ d →
      Relation.TransGen (depEdge g) (f^[i + d] ⟨k₀, hk₀⟩).val (f^[i] ⟨k₀, hk₀⟩).val := by
    intro i d hd
    induction d with
    | zero => omega
    | succ d ihd =>
      by_cases hd0 : d = 0
      · subst hd0
        have he : f^[i + 1] ⟨k₀, hk₀⟩ = f (f^[i] ⟨k₀, hk₀⟩) :=
          Function.iterate_succ_apply' f i _
        rw [he]
        exact Relation.TransGen.single (hf _)
      · have he : f^[i + (d + 1)] ⟨k₀, hk₀⟩ = f (f^[i + d] ⟨k₀, hk₀⟩) := by
          rw [show i + (d + 1) = (i + d) + 1 by omega]
          exact Function.iterate_succ_apply' f _ _
        rw [he]
        exact Relation.TransGen.head (hf _) (ihd (by omega))
  obtain ⟨i, j, hij, heq⟩ := Fintype.exists_ne_map_eq_of_card_lt
    (fun i : Fin (Fintype.card {x // x ∈ (keysOf g).toFinset} + 1) =>
      f^[i.val] ⟨k₀, hk₀⟩) (by simp)
  rcases Nat.lt_or_ge i.val j.val with hlt | hge
  · have hc := hchain i.val (j.val - i.val) (by omega)
    rw [show i.val + (j.val - i.val) = j.val by omega] at hc
    rw [heq] at hc
    exact ⟨_, hc⟩
  · have hlt : j.val < i.val := by
      rcases Nat.lt_or_ge j.val i.val with h1 | h2
      · exact h1
      · exact absurd (Fin.ext (by omega)) hij
    have hc := hchain j.val (i.val - j.val) (by omega)
    rw [show j.val + (i.val - j.val) = i.val by omega] at hc
    rw [heq] at hc
    exact ⟨_, hc⟩

/-! ### Gluing: what `topological_sort` returns -/

theorem topological_sort_split {α : Type} (refName : α → String)
    (refs : α → List String) (decls : List α) :
    ∃ gf of, SortInv (buildGraph refName refs decls) gf [] of ∧
      topological_sort refName refs decls =
        (if gf.isEmpty then
          .ok (decls.insertionSort (fun a b =>
            of.indexOf (refName a) ≤ of.indexOf (refName b)))
        else .error gf) := by
  have hk0 := buildGraph_keys_nodup refName refs decls
  have hv0 := buildGraph_values_nodup refName refs decls
  obtain ⟨gf, of, hrun, hfinv⟩ := sortLoop_run (buildGraph refName refs decls) hk0 hv0
    (graphMeasure (buildGraph refName refs decls)
      ((keysOf (buildGraph refName refs decls)).filter
        (fun n => !has_predecessor (buildGraph refName refs decls) n)) + 1)
    (buildGraph refName refs decls)
    ((keysOf (buildGraph refName refs decls)).filter
      (fun n => !has_predecessor (buildGraph refName refs decls) n))
    [] (by omega) (sortInv_init _ hk0)
  refine ⟨gf, of, hfinv, ?_⟩
  rw [topological_sort, hrun]

theorem declEdge_iff_depEdge {α : Type} (refName : α → String)
    (refs : α → List String) {decls : List α}
    (hnd : (decls.map refName).Nodup) (n m : String) :
    declEdge refName refs decls n m ↔
      depEdge (buildGraph refName refs decls) n m := by
  constructor
  · rintro ⟨d, hd, rfl, hm⟩
    rw [depEdge, lookupDeps_buildGraph_of_nodup refName refs hnd hd]
    exact List.mem_dedup.2 hm
  · intro h
    have hn : n ∈ keysOf (buildGraph refName refs decls) := depEdge_mem_keysOf h
    rw [keysOf_buildGraph_of_nodup refName refs hnd] at hn
    rcases List.mem_map.1 hn with ⟨d, hd, rfl⟩
    rw [depEdge, lookupDeps_buildGraph_of_nodup refName refs hnd hd] at h
    exact ⟨d, hd, rfl, List.mem_dedup.1 h⟩

theorem declCycle_iff_hasCycle {α : Type} (refName : α → String)
    (refs : α → List String) {decls : List α}
    (hnd : (decls.map refName).Nodup) :
    (∃ n, Relation.TransGen (declEdge refName refs decls) n n) ↔
      HasCycle (buildGraph refName refs decls) := by
  constructor
  · rintro ⟨n, h⟩
    exact ⟨n, h.mono (fun a b => (declEdge_iff_depEdge refName refs hnd a b).1)⟩
  · rintro ⟨n, h⟩
    exact ⟨n, h.mono (fun a b => (declEdge_iff_depEdge refName refs hnd a b).2)⟩

/-- A nonempty final graph yields a cycle of the original relation. -/
theorem failure_cycle {α : Type} (refName : α → String)
    (refs : α → List String) {decls : List α}
    (hnd : (decls.map refName).Nodup) {gf : Graph} {of : List String}
    (hfinv : SortInv (buildGraph refName refs decls) gf [] of) (hne : gf ≠ []) :
    ∃ n, Relation.TransGen (declEdge refName refs decls) n n := by
  have hk0 := buildGraph_keys_nodup refName refs decls
  have hkne : keysOf gf ≠ [] := by
    intro hc
    exact hne (List.map_eq_nil_iff.1 hc)
  have hcyc : HasCycle gf :=
    cycle_of_all_pred gf hkne (failure_pred hk0 hfinv)
  rcases hcyc with ⟨n, hn⟩
  refine (declCycle_iff_hasCycle refName refs hnd).2 ⟨n, ?_⟩
  exact hn.mono (fun a b => depEdge_of_sublist hfinv.sub hk0)

/-- Helper: locating two distinct members of a list relative to each
other. -/
theorem mem_split_pair {α : Type} {l : List α} {x y : α}
    (hx : x ∈ l) (hy : y ∈ l) (hne : x ≠ y) :
    (∃ l₁ l₂ l₃, l = l₁ ++ x :: l₂ ++ y :: l₃) ∨
    (∃ l₁ l₂ l₃, l = l₁ ++ y :: l₂ ++ x :: l₃) := by
  induction l with
  | nil => simp at hx
  | cons a l ih =>
    rcases List.mem_cons.1 hx with rfl | hx'
    · have hy' : y ∈ l := by
        rcases List.mem_cons.1 hy with h | h
        · exact absurd h.symm hne
        · exact h
      obtain ⟨s, t, hst⟩ := List.append_of_mem hy'
      exact Or.inl ⟨[], s, t, by simp [hst]⟩
    · rcases List.mem_cons.1 hy with rfl | hy'
      · obtain ⟨s, t, hst⟩ := List.append_of_mem hx'
        exact Or.inr ⟨[], s, t, by simp [hst]⟩
      · rcases ih hx' hy' with ⟨l₁, l₂, l₃, he⟩ | ⟨l₁, l₂, l₃, he⟩
        · exact Or.inl ⟨a :: l₁, l₂, l₃, by simp [he]⟩
        · exact Or.inr ⟨a :: l₁, l₂, l₃, by simp [he]⟩

theorem pairwise_of_split {α : Type} {R : α → α → Prop} {l l₁ l₂ l₃ : List α}
    {x y : α} (h : l.Pairwise R) (he : l = l₁ ++ x :: l₂ ++ y :: l₃) : R x y := by
  subst he
  have hcross := (List.pairwise_append.1 h).2.2
  exact hcross x (List.mem_append_right l₁ (List.mem_cons_self x l₂)) y
    (List.mem_cons_self y l₃)

/-! ## The claims -/

/-- C1: for every collection of entities with pairwise-distinct
reference names whose dependency relation restricted to member names is
acyclic, `topological_sort` returns a permutation of the input in which
every entity appears after every member entity whose reference name
occurs in its `references()`; names that are no member's reference name
never block sorting.  In particular, for the declarations `A ::= B`,
`B ::= INTEGER` it yields `[B, A]`. -/
theorem C1_topological_sort_dependency_first {α : Type} (refName : α → String)
    (refs : α → List String) (decls : List α)
    (hnd : (decls.map refName).Nodup)
    (hacyc : ¬ ∃ n, Relation.TransGen (declEdge refName refs decls) n n) :
    (∃ result, topological_sort refName refs decls = .ok result ∧
      result.Perm decls ∧
      ∀ a ∈ decls, ∀ b ∈ decls, refName b ∈ refs a → refName a ≠ refName b →
        appearsBefore result b a) ∧
    topological_sort declName declRefs
        [SemaNode.typeAssignment "A" (.userDefinedType "B"),
         SemaNode.typeAssignment "B" (.simpleType "INTEGER" none)] =
      .ok [SemaNode.typeAssignment "B" (.simpleType "INTEGER" none),
           SemaNode.typeAssignment "A" (.userDefinedType "B")] := by
  constructor
  · obtain ⟨gf, of, hfinv, hres⟩ := topological_sort_split refName refs decls
    cases gf with
    | cons p g' =>
      exact absurd (failure_cycle refName refs hnd hfinv (by simp)) hacyc
    | nil =>
      set r : α → α → Prop := fun a b =>
        of.indexOf (refName a) ≤ of.indexOf (refName b) with hr
      haveI : IsTotal α r := ⟨fun a b => Nat.le_total _ _⟩
      haveI : IsTrans α r := ⟨fun a b c hab hbc => Nat.le_trans hab hbc⟩
      have hok : topological_sort refName refs decls =
          .ok (decls.insertionSort r) := by
        rw [hres]
        rfl
      refine ⟨_, hok, List.perm_insertionSort r decls, ?_⟩
      intro a ha b hb hba hne
      have hedge : depEdge (buildGraph refName refs decls) (refName a) (refName b) :=
        (declEdge_iff_depEdge refName refs hnd _ _).1 ⟨a, ha, rfl, hba⟩
      have hbk : refName b ∈ keysOf (buildGraph refName refs decls) := by
        rw [keysOf_buildGraph_of_nodup refName refs hnd]
        exact List.mem_map_of_mem refName hb
      have hlt : of.indexOf (refName b) < of.indexOf (refName a) :=
        final_rank hfinv hedge hbk
      have hsorted : (decls.insertionSort r).Pairwise r :=
        List.sorted_insertionSort r decls
      have hmem : a ∈ decls.insertionSort r :=
        (List.perm_insertionSort r decls).mem_iff.2 ha
      have hmem' : b ∈ decls.insertionSort r :=
        (List.perm_insertionSort r decls).mem_iff.2 hb
      have hne' : a ≠ b := fun he => hne (he ▸ rfl)
      rcases mem_split_pair hmem hmem' hne' with ⟨l₁, l₂, l₃, he⟩ | ⟨l₁, l₂, l₃, he⟩
      · have := pairwise_of_split hsorted he
        rw [hr] at this
        omega
      · exact ⟨l₁, l₂, l₃, he⟩
  · rfl

/-- C3: `topological_sort` raises the cyclic-reference error exactly
when the dependency relation among member names has a cycle; the error
payload is a sub-dictionary of the built graph (each remaining name
mapped to its recorded dependency set) in which every member-name
dependency of a remaining name is itself still unresolved (remaining);
for the 3-cycle `A→B→C→A` it names exactly `A`, `B`, `C`. -/
theorem C3_cyclic_reference_error {α : Type} (refName : α → String)
    (refs : α → List String) (decls : List α)
    (hnd : (decls.map refName).Nodup) :
    ((∃ gf, topological_sort refName refs decls = .error gf) ↔
      ∃ n, Relation.TransGen (declEdge refName refs decls) n n) ∧
    (∀ gf, topological_sort refName refs decls = .error gf →
      (∀ p ∈ gf, p ∈ buildGraph refName refs decls) ∧
      (∀ p ∈ gf, ∀ b ∈ p.2,
        b ∈ keysOf (buildGraph refName refs decls) → b ∈ keysOf gf)) ∧
    topological_sort declName declRefs
        [SemaNode.typeAssignment "A" (.userDefinedType "B"),
         SemaNode.typeAssignment "B" (.userDefinedType "C"),
         SemaNode.typeAssignment "C" (.userDefinedType "A")] =
      .error [("A", ["B"]), ("B", ["C"]), ("C", ["A"])] := by
  obtain ⟨gf, of, hfinv, hres⟩ := topological_sort_split refName refs decls
  refine ⟨⟨?_, ?_⟩, ?_, ?_⟩
  · rintro ⟨g, hg⟩
    cases gf with
    | nil =>
      rw [hres] at hg
      simp at hg
    | cons p g' =>
      exact failure_cycle refName refs hnd hfinv (by simp)
  · intro hcyc
    cases gf with
    | nil =>
      exfalso
      have := no_cycle_of_success hfinv
      exact this ((declCycle_iff_hasCycle refName refs hnd).1 hcyc)
    | cons p g' =>
      refine ⟨p :: g', ?_⟩
      rw [hres]
      rfl
  · intro g hg
    cases gf with
    | nil =>
      rw [hres] at hg
      simp at hg
    | cons p g' =>
      rw [hres] at hg
      simp only [List.isEmpty_cons, Bool.false_eq_true, if_false,
        Except.error.injEq] at hg
      subst hg
      have hk0 := buildGraph_keys_nodup refName refs decls
      constructor
      · exact fun q hq => hfinv.sub.subset hq
      · intro q hq b hb hbk
        have hpred : has_predecessor (p :: g') b = true :=
          has_predecessor_iff.2 ⟨q, hq, hb⟩
        have hbo : b ∉ of := by
          intro hc
          rw [hfinv.freeO b hc] at hpred
          exact absurd hpred (by simp)
        rcases hfinv.cover b hbk with h | h
        · exact h
        · exact absurd h hbo
  · rfl

/-- C4, counterexample: a failing run in which the reported name `X`
does not lie on any dependency cycle among the reported names (it is
merely referenced by the cycle `B→C→B`). -/
theorem C4_counterexample :
    topological_sort declName declRefs
        [SemaNode.typeAssignment "B" (.userDefinedType "C"),
         SemaNode.typeAssignment "C" (.sequenceType "SEQUENCE"
           [.componentType "b" false none (.userDefinedType "B"),
            .componentType "x" false none (.userDefinedType "X")]),
         SemaNode.typeAssignment "X" (.simpleType "INTEGER" none)] =
      .error [("B", ["C"]), ("C", ["B", "X"]), ("X", ["INTEGER"])] ∧
    "X" ∈ keysOf [("B", ["C"]), ("C", ["B", "X"]), ("X", ["INTEGER"])] ∧
    ¬ Relation.TransGen
        (depEdge [("B", ["C"]), ("C", ["B", "X"]), ("X", ["INTEGER"])]) "X" "X" := by
  refine ⟨rfl, by simp [keysOf], ?_⟩
  intro hcyc
  rcases Relation.TransGen.head'_iff.1 hcyc with ⟨m, hm, hr⟩
  have hmI : m = "INTEGER" := by
    have : m ∈ lookupDeps [("B", ["C"]), ("C", ["B", "X"]), ("X", ["INTEGER"])] "X" := hm
    simpa [lookupDeps] using this
  subst hmI
  rcases (Relation.reflTransGen_iff_eq_or_transGen.1 hr) with he | ht
  · exact absurd he (by decide)
  · rcases Relation.TransGen.head'_iff.1 ht with ⟨m', hm', _⟩
    have : m' ∈ lookupDeps [("B", ["C"]), ("C", ["B", "X"]), ("X", ["INTEGER"])] "INTEGER" := hm'
    simp [lookupDeps] at this

/-- C4, amended: whenever `topological_sort` fails, the reported
remainder contains at least one dependency cycle, and every reported
name has a predecessor among the reported names (some reported name
depends on it) -- but not every reported name need lie on a cycle. -/
theorem C4_amended_remainder_cyclic {α : Type} (refName : α → String)
    (refs : α → List String) (decls : List α) :
    ∀ gf, topological_sort refName refs decls = .error gf →
      (∃ n, Relation.TransGen (depEdge gf) n n) ∧
      (∀ k ∈ keysOf gf, ∃ x ∈ keysOf gf, depEdge gf x k) := by
  intro g hg
  obtain ⟨gf, of, hfinv, hres⟩ := topological_sort_split refName refs decls
  have hk0 := buildGraph_keys_nodup refName refs decls
  cases gf with
  | nil =>
    rw [hres] at hg
    simp at hg
  | cons p g' =>
    rw [hres] at hg
    simp only [List.isEmpty_cons, Bool.false_eq_true, if_false,
      Except.error.injEq] at hg
    subst hg
    have hpred := failure_pred hk0 hfinv
    refine ⟨?_, hpred⟩
    have hkne : keysOf (p :: g') ≠ [] := by simp [keysOf]
    exact cycle_of_all_pred _ hkne hpred

/-! ### Lemmas about `resolve_type_decl` -/

/-- A successful resolution never returns a forward reference (the
non-reference branch is the only one producing `ok`). -/
theorem resolve_ok_not_udt (uts : List (String × SemaNode)) :
    ∀ fuel d r, resolve_type_decl uts fuel d = .ok r → isUserDefined r = false := by
  intro fuel
  induction fuel with
  | zero =>
    intro d r h
    simp [resolve_type_decl] at h
  | succ fuel ih =>
    intro d r h
    cases d
    case userDefinedType n =>
      simp only [resolve_type_decl] at h
      cases hl : utLookup uts n with
      | some d' =>
        rw [hl] at h
        exact ih d' r h
      | none =>
        rw [hl] at h
        exact absurd h (by simp)
    all_goals (simp only [resolve_type_decl, ResolveResult.ok.injEq] at h; rw [← h]; rfl)

/-- Following a dead-end chain: for any fuel beyond the chain length,
resolution reports the missing name. -/
theorem chain_keyError (uts : List (String × SemaNode)) :
    ∀ k (d : SemaNode) m, chainIter uts k d = some (.userDefinedType m) →
      utLookup uts m = none →
      ∀ fuel, k < fuel → resolve_type_decl uts fuel d = .keyError m := by
  intro k
  induction k with
  | zero =>
    intro d m h hl fuel hf
    simp only [chainIter, Option.some.injEq] at h
    subst h
    obtain ⟨f, rfl⟩ : ∃ f, fuel = f + 1 := ⟨fuel - 1, by omega⟩
    simp [resolve_type_decl, hl]
  | succ k ih =>
    intro d m h hl fuel hf
    cases d
    case userDefinedType n =>
      simp only [chainIter] at h
      cases hlk : utLookup uts n with
      | some d₁ =>
        rw [hlk] at h
        obtain ⟨f, rfl⟩ : ∃ f, fuel = f + 1 := ⟨fuel - 1, by omega⟩
        simp only [resolve_type_decl, hlk]
        exact ih d₁ m h hl f (by omega)
      | none =>
        rw [hlk] at h
        simp at h
    all_goals exact absurd h (by simp [chainIter])

/-- A dead-end chain never produces a value, at any fuel. -/
theorem chain_never_ok (uts : List (String × SemaNode)) :
    ∀ fuel k (d : SemaNode) m, chainIter uts k d = some (.userDefinedType m) →
      utLookup uts m = none →
      ∀ r, resolve_type_decl uts fuel d ≠ .ok r := by
  intro fuel
  induction fuel with
  | zero =>
    intro k d m h hl r hc
    simp [resolve_type_decl] at hc
  | succ fuel ih =>
    intro k d m h hl r hc
    cases k with
    | zero =>
      simp only [chainIter, Option.some.injEq] at h
      subst h
      simp [resolve_type_decl, hl] at hc
    | succ k =>
      cases d
      case userDefinedType n =>
        simp only [chainIter] at h
        cases hlk : utLookup uts n with
        | some d₁ =>
          rw [hlk] at h
          simp only [resolve_type_decl, hlk] at hc
          exact ih k d₁ m h hl r hc
        | none =>
          rw [hlk] at h
          simp at h
      all_goals exact absurd h (by simp [chainIter])

/-- Any reported KeyError names a name genuinely absent from the
index. -/
theorem keyError_missing (uts : List (String × SemaNode)) :
    ∀ fuel d m, resolve_type_decl uts fuel d = .keyError m →
      utLookup uts m = none := by
  intro fuel
  induction fuel with
  | zero =>
    intro d m h
    simp [resolve_type_decl] at h
  | succ fuel ih =>
    intro d m h
    cases d
    case userDefinedType n =>
      simp only [resolve_type_decl] at h
      cases hlk : utLookup uts n with
      | some d₁ =>
        rw [hlk] at h
        exact ih d₁ m h
      | none =>
        rw [hlk] at h
        cases h
        exact hlk
    all_goals exact absurd h (by simp [resolve_type_decl])

/-- C5: `resolve_type_decl` is idempotent: any non-reference declaration
resolves to itself unchanged; whenever resolution terminates, resolving
the result again returns it unchanged; and for the two-hop chain
`A ::= B`, `B ::= SEQUENCE{...}`, resolving a reference to `A` equals
resolving `B` directly (both give the same structural node). -/
theorem C5_resolve_type_decl_idempotent (uts : List (String × SemaNode)) :
    (∀ d fuel, isUserDefined d = false →
      resolve_type_decl uts (fuel + 1) d = .ok d) ∧
    (∀ fuel d r, resolve_type_decl uts fuel d = .ok r →
      ∀ fuel', resolve_type_decl uts (fuel' + 1) r = .ok r) ∧
    (∀ fuel, resolve_type_decl twoHopIndex (fuel + 3) (.userDefinedType "A") =
      resolve_type_decl twoHopIndex (fuel + 2) (.userDefinedType "B")) ∧
    resolve_type_decl twoHopIndex 3 (.userDefinedType "A") =
      .ok (.sequenceType "SEQUENCE"
        [.componentType "f" false none (.simpleType "INTEGER" none)]) ∧
    resolve_type_decl twoHopIndex 2 (.userDefinedType "B") =
      .ok (.sequenceType "SEQUENCE"
        [.componentType "f" false none (.simpleType "INTEGER" none)]) := by
  have hself : ∀ (d : SemaNode) (fuel : Nat), isUserDefined d = false →
      resolve_type_decl uts (fuel + 1) d = .ok d := by
    intro d fuel hd
    cases d
    case userDefinedType n => simp [isUserDefined] at hd
    all_goals rfl
  refine ⟨hself, ?_, fun fuel => rfl, by rfl, by rfl⟩
  intro fuel d r h fuel'
  exact hself r fuel' (resolve_ok_not_udt uts fuel d r h)

/-- C6: resolution terminates (with enough fuel) exactly for chains that
reach a non-reference declaration after finitely many hops; on a cycle
of forward references all present in the index, no fuel ever suffices
(the Python recursion never returns). -/
theorem C6_resolve_termination (uts : List (String × SemaNode)) :
    (∀ k d d', chainIter uts k d = some d' → isUserDefined d' = false →
      resolve_type_decl uts (k + 1) d = .ok d') ∧
    (∀ S : List String,
      (∀ m ∈ S, ∃ m', m' ∈ S ∧ utLookup uts m = some (.userDefinedType m')) →
      ∀ fuel n, n ∈ S →
        resolve_type_decl uts fuel (.userDefinedType n) = .outOfFuel) := by
  constructor
  · intro k
    induction k with
    | zero =>
      intro d d' h hd'
      simp only [chainIter, Option.some.injEq] at h
      subst h
      cases d
      case userDefinedType n => simp [isUserDefined] at hd'
      all_goals rfl
    | succ k ih =>
      intro d d' h hd'
      cases d
      case userDefinedType n =>
        simp only [chainIter] at h
        cases hl : utLookup uts n with
        | some d₁ =>
          rw [hl] at h
          show resolve_type_decl uts (k + 1 + 1) (.userDefinedType n) = .ok d'
          simp only [resolve_type_decl, hl]
          exact ih d₁ d' h hd'
        | none =>
          rw [hl] at h
          simp at h
      all_goals exact absurd h (by simp [chainIter])
  · intro S hS fuel
    induction fuel with
    | zero => intro n _; rfl
    | succ fuel ih =>
      intro n hn
      rcases hS n hn with ⟨m', hm', hl⟩
      show resolve_type_decl uts (fuel + 1) (.userDefinedType n) = .outOfFuel
      simp only [resolve_type_decl, hl]
      exact ih m' hm'

/-- C7: when the chain of forward references reaches a name absent from
the index, resolution fails with a KeyError naming exactly that missing
type (for every sufficient fuel), and no value is ever returned at any
fuel; conversely any KeyError raised names a genuinely missing name. -/
theorem C7_unresolved_reference (uts : List (String × SemaNode)) :
    (∀ k d m, chainIter uts k d = some (.userDefinedType m) →
      utLookup uts m = none →
      (∀ fuel, k < fuel → resolve_type_decl uts fuel d = .keyError m) ∧
      (∀ fuel r, resolve_type_decl uts fuel d ≠ .ok r)) ∧
    (∀ fuel d m, resolve_type_decl uts fuel d = .keyError m →
      utLookup uts m = none) := by
  refine ⟨?_, keyError_missing uts⟩
  intro k d m hch hl
  exact ⟨fun fuel hf => chain_keyError uts k d m hch hl fuel hf,
         fun fuel r => chain_never_ok uts fuel k d m hch hl r⟩

/-- Decomposing a successful `Except` bind. -/
theorem except_bind_ok {β γ : Type} {x : Except String β} {f : β → Except String γ}
    {r : γ} (h : x.bind f = .ok r) : ∃ a, x = .ok a ∧ f a = .ok r := by
  cases x with
  | error e => simp [Except.bind] at h
  | ok a => exact ⟨a, rfl, by simpa [Except.bind] using h⟩

/-! ### Fuel stability of the node factory

`createSemaNodeF` ignores its fuel as long as the fuel exceeds the size
of the token tree; hence `_create_sema_node` (which supplies fuel
`tokSize t + 1`) is a fixpoint of the dispatcher, and the recursion
limit introduced by the embedding is never hit.  The congruence lemmas
below propagate a callback replacement through each constructor. -/

theorem tokSize_pos (t : Token) : 1 ≤ tokSize t := by
  cases t with
  | node ty els =>
    have h : tokSize (Token.node ty els) = 1 + tokListSize els := rfl
    omega
  | lit s => exact Nat.le_refl 1
  | group els =>
    have h : tokSize (Token.group els) = 1 + tokListSize els := rfl
    omega

theorem tokSize_lt_of_mem {t : Token} :
    ∀ {ts : List Token}, t ∈ ts → tokSize t < tokListSize ts := by
  intro ts h
  induction ts with
  | nil => simp at h
  | cons a ts ih =>
    have hsz : tokListSize (a :: ts) = 1 + tokSize a + tokListSize ts := rfl
    rcases List.mem_cons.1 h with rfl | h'
    · omega
    · have := ih h'
      omega

/-- One symbolic step of the dispatcher. -/
theorem createSemaNodeF_node (fuel : Nat) (ty : String) (els : List Token)
    (c : Nat) :
    createSemaNodeF (fuel + 1) (.node ty els) c =
      (if ty == "ModuleDefinition" then Module_init (createSemaNodeF fuel) els c
      else if ty == "TypeAssignment" then TypeAssignment_init (createSemaNodeF fuel) els c
      else if ty == "ValueAssignment" then ValueAssignment_init (createSemaNodeF fuel) els c
      else if ty == "ValueReference" then ValueReference_init els c
      else if ty == "ComponentType" then ComponentType_init (createSemaNodeF fuel) els c
      else if ty == "NamedType" then NamedType_init (createSemaNodeF fuel) els c
      else if ty == "ValueListType" then ValueListType_init (createSemaNodeF fuel) els c
      else if ty == "BitStringType" then BitStringType_init (createSemaNodeF fuel) els c
      else if ty == "NamedValue" then NamedValue_init els c
      else if ty == "Type" then
        match els with
        | e :: _ => createSemaNodeF fuel e c
        | [] => throw "IndexError"
      else if ty == "SimpleType" then SimpleType_init (createSemaNodeF fuel) els c
      else if ty == "ReferencedType" then UserDefinedType_init els c
      else if ty == "TaggedType" then TaggedType_init (createSemaNodeF fuel) els c
      else if ty == "SequenceType" then SequenceType_init (createSemaNodeF fuel) els c
      else if ty == "ChoiceType" then ChoiceType_init (createSemaNodeF fuel) els c
      else if ty == "SequenceOfType" then SequenceOfType_init (createSemaNodeF fuel) els c
      else if ty == "SetOfType" then SetOfType_init (createSemaNodeF fuel) els c
      else throw ("Unknown token type: " ++ ty)) := rfl

theorem createNodeListF_congr {f g : CreateFun} :
    ∀ (ts : List Token), (∀ t ∈ ts, f t = g t) →
      createNodeListF f ts = createNodeListF g ts := by
  intro ts
  induction ts with
  | nil => intro _; funext c; rfl
  | cons t ts ih =>
    intro h
    funext c
    simp only [createNodeListF]
    rw [h t (List.mem_cons_self t ts),
      ih (fun t' ht' => h t' (List.mem_cons_of_mem t ht'))]

theorem Module_init_congr {f g : CreateFun} (els : List Token)
    (h : ∀ t, tokSize t < tokListSize els → f t = g t) (c : Nat) :
    Module_init f els c = Module_init g els c := by
  rcases els with _ | ⟨mr, _ | ⟨e2, _ | ⟨e3, _ | ⟨e4, _ | ⟨mb, _ | ⟨e6, _ | ⟨e7, tl⟩⟩⟩⟩⟩⟩⟩ <;>
    try rfl
  cases mr with
  | lit s => rfl
  | group gr => rfl
  | node ty1 mrEls =>
    cases mb with
    | lit s2 => rfl
    | group g2 => rfl
    | node ty2 mbEls =>
      have hsub : ∀ t ∈ mbEls, f t = g t := by
        intro t ht
        refine h t ?_
        have h1 := tokSize_lt_of_mem ht
        have h2 : tokSize (Token.node ty2 mbEls) = 1 + tokListSize mbEls := rfl
        have h3 := tokSize_lt_of_mem
          (show Token.node ty2 mbEls ∈
            [Token.node ty1 mrEls, e2, e3, e4, Token.node ty2 mbEls, e6] by simp)
        omega
      simp only [Module_init]
      rw [createNodeListF_congr mbEls hsub]

theorem TypeAssignment_init_congr {f g : CreateFun} (els : List Token)
    (h : ∀ t, tokSize t < tokListSize els → f t = g t) (c : Nat) :
    TypeAssignment_init f els c = TypeAssignment_init g els c := by
  rcases els with _ | ⟨a0, _ | ⟨a1, _ | ⟨a2, _ | ⟨a3, tl⟩⟩⟩⟩ <;> try rfl
  simp only [TypeAssignment_init]
  rw [h a2 (tokSize_lt_of_mem (by simp))]

theorem ValueAssignment_init_congr {f g : CreateFun} (els : List Token)
    (h : ∀ t, tokSize t < tokListSize els → f t = g t) (c : Nat) :
    ValueAssignment_init f els c = ValueAssignment_init g els c := by
  rcases els with _ | ⟨a0, _ | ⟨a1, _ | ⟨a2, _ | ⟨a3, _ | ⟨a4, tl⟩⟩⟩⟩⟩ <;> try rfl
  simp only [ValueAssignment_init]
  rw [h a1 (tokSize_lt_of_mem (by simp)), h a3 (tokSize_lt_of_mem (by simp))]

theorem ComponentType_init_congr {f g : CreateFun} (els : List Token)
    (h : ∀ t, tokSize t < tokListSize els → f t = g t) (c : Nat) :
    ComponentType_init f els c = ComponentType_init g els c := by
  rcases els with _ | ⟨a0, tl⟩
  · rfl
  cases tl with
  | nil =>
    simp only [ComponentType_init]
    rw [h a0 (tokSize_lt_of_mem (by simp))]
  | cons t0 tl2 =>
    simp only [ComponentType_init]
    rw [h a0 (tokSize_lt_of_mem (by simp)), h t0 (tokSize_lt_of_mem (by simp))]

theorem NamedType_init_congr {f g : CreateFun} (els : List Token)
    (h : ∀ t, tokSize t < tokListSize els → f t = g t) (c : Nat) :
    NamedType_init f els c = NamedType_init g els c := by
  rcases els with _ | ⟨a0, _ | ⟨a1, tl⟩⟩ <;> try rfl
  simp only [NamedType_init]
  rw [h a1 (tokSize_lt_of_mem (by simp))]

theorem ValueListType_init_congr {f g : CreateFun} (els : List Token)
    (h : ∀ t, tokSize t < tokListSize els → f t = g t) (c : Nat) :
    ValueListType_init f els c = ValueListType_init g els c := by
  rcases els with _ | ⟨a0, _ | ⟨a1, tl⟩⟩ <;> try rfl
  cases a1 with
  | lit s => rfl
  | node nty nEls => rfl
  | group vts =>
    have hsub : ∀ t ∈ vts, f t = g t := by
      intro t ht
      refine h t ?_
      have h1 := tokSize_lt_of_mem ht
      have h2 : tokSize (Token.group vts) = 1 + tokListSize vts := rfl
      have h3 := tokSize_lt_of_mem
        (show Token.group vts ∈ a0 :: Token.group vts :: tl by simp)
      omega
    simp only [ValueListType_init]
    rw [createNodeListF_congr vts hsub]

theorem BitStringType_init_congr {f g : CreateFun} (els : List Token)
    (h : ∀ t, tokSize t < tokListSize els → f t = g t) (c : Nat) :
    BitStringType_init f els c = BitStringType_init g els c := by
  rcases els with _ | ⟨a0, _ | ⟨a1, tl⟩⟩ <;> try rfl
  cases a1 with
  | lit s => rfl
  | node nty nEls => rfl
  | group bts =>
    have hsub : ∀ t ∈ bts, f t = g t := by
      intro t ht
      refine h t ?_
      have h1 := tokSize_lt_of_mem ht
      have h2 : tokSize (Token.group bts) = 1 + tokListSize bts := rfl
      have h3 := tokSize_lt_of_mem
        (show Token.group bts ∈ a0 :: Token.group bts :: tl by simp)
      omega
    simp only [BitStringType_init]
    rw [createNodeListF_congr bts hsub]

theorem SimpleType_init_congr {f g : CreateFun} (els : List Token)
    (h : ∀ t, tokSize t < tokListSize els → f t = g t) (c : Nat) :
    SimpleType_init f els c = SimpleType_init g els c := by
  rcases els with _ | ⟨a0, _ | ⟨e1, tl2⟩⟩
  · rfl
  · rfl
  cases e1 with
  | lit s => rfl
  | group gr => rfl
  | node cty cEls =>
    rcases cEls with _ | ⟨mn, _ | ⟨mx, _ | ⟨c3, ctl⟩⟩⟩ <;> try rfl
    have hmem : Token.node cty [mn, mx] ∈ a0 :: Token.node cty [mn, mx] :: tl2 := by
      simp
    have hout := tokSize_lt_of_mem hmem
    have hcn : tokSize (Token.node cty [mn, mx]) = 1 + tokListSize [mn, mx] := rfl
    have hmn : f mn = g mn := by
      refine h mn ?_
      have h1 : tokSize mn < tokListSize [mn, mx] := tokSize_lt_of_mem (by simp)
      omega
    have hmx : f mx = g mx := by
      refine h mx ?_
      have h1 : tokSize mx < tokListSize [mn, mx] := tokSize_lt_of_mem (by simp)
      omega
    simp only [SimpleType_init]
    rw [hmn, hmx]

theorem TaggedType_init_congr {f g : CreateFun} (els : List Token)
    (h : ∀ t, tokSize t < tokListSize els → f t = g t) (c : Nat) :
    TaggedType_init f els c = TaggedType_init g els c := by
  rcases els with _ | ⟨a0, _ | ⟨e1, rest⟩⟩ <;> try rfl
  cases rest with
  | nil =>
    simp only [TaggedType_init]
    rw [h e1 (tokSize_lt_of_mem (by simp))]
  | cons tt0 rest2 =>
    simp only [TaggedType_init]
    rw [h e1 (tokSize_lt_of_mem (by simp)), h tt0 (tokSize_lt_of_mem (by simp))]

theorem SequenceType_init_congr {f g : CreateFun} (els : List Token)
    (h : ∀ t, tokSize t < tokListSize els → f t = g t) (c : Nat) :
    SequenceType_init f els c = SequenceType_init g els c := by
  rcases els with _ | ⟨a0, _ | ⟨a1, _ | ⟨a2, tl⟩⟩⟩ <;> try rfl
  cases a1 with
  | lit s => rfl
  | node nty nEls => rfl
  | group cts =>
    have hsub : ∀ t ∈ cts, f t = g t := by
      intro t ht
      refine h t ?_
      have h1 := tokSize_lt_of_mem ht
      have h2 : tokSize (Token.group cts) = 1 + tokListSize cts := rfl
      have h3 := tokSize_lt_of_mem
        (show Token.group cts ∈ [a0, Token.group cts] by simp)
      omega
    simp only [SequenceType_init]
    rw [createNodeListF_congr cts hsub]

theorem ChoiceType_init_congr {f g : CreateFun} (els : List Token)
    (h : ∀ t, tokSize t < tokListSize els → f t = g t) (c : Nat) :
    ChoiceType_init f els c = ChoiceType_init g els c := by
  rcases els with _ | ⟨a0, _ | ⟨a1, _ | ⟨a2, tl⟩⟩⟩ <;> try rfl
  cases a1 with
  | lit s => rfl
  | node nty nEls => rfl
  | group cts =>
    have hsub : ∀ t ∈ cts, f t = g t := by
      intro t ht
      refine h t ?_
      have h1 := tokSize_lt_of_mem ht
      have h2 : tokSize (Token.group cts) = 1 + tokListSize cts := rfl
      have h3 := tokSize_lt_of_mem
        (show Token.group cts ∈ [a0, Token.group cts] by simp)
      omega
    simp only [ChoiceType_init]
    rw [createNodeListF_congr cts hsub]

theorem SequenceOfType_init_congr {f g : CreateFun} (els : List Token)
    (h : ∀ t, tokSize t < tokListSize els → f t = g t) (c : Nat) :
    SequenceOfType_init f els c = SequenceOfType_init g els c := by
  rcases els with _ | ⟨a0, _ | ⟨a1, _ | ⟨a2, tl⟩⟩⟩ <;> try rfl
  simp only [SequenceOfType_init]
  rw [h a1 (tokSize_lt_of_mem (by simp))]

theorem SetOfType_init_congr {f g : CreateFun} (els : List Token)
    (h : ∀ t, tokSize t < tokListSize els → f t = g t) (c : Nat) :
    SetOfType_init f els c = SetOfType_init g els c := by
  rcases els with _ | ⟨a0, _ | ⟨a1, _ | ⟨a2, tl⟩⟩⟩ <;> try rfl
  simp only [SetOfType_init]
  rw [h a1 (tokSize_lt_of_mem (by simp))]

/-- Any fuel above the token size computes `_create_sema_node`. -/
theorem createF_stable :
    ∀ n t c, tokSize t < n → createSemaNodeF n t c = _create_sema_node t c := by
  intro n
  induction n using Nat.strong_induction_on with
  | _ n ih =>
    intro t c hn
    obtain ⟨m, rfl⟩ : ∃ m, n = m + 1 :=
      ⟨n - 1, by have := tokSize_pos t; omega⟩
    cases t with
    | lit s => rfl
    | group els => rfl
    | node ty els =>
      have hsz : tokSize (Token.node ty els) = 1 + tokListSize els := rfl
      have hAg : ∀ t', tokSize t' < tokListSize els →
          createSemaNodeF m t' = createSemaNodeF (tokSize (Token.node ty els)) t' := by
        intro t' ht'
        funext c'
        rw [ih m (by omega) t' c' (by omega),
          ih (tokSize (Token.node ty els)) (by omega) t' c' (by omega)]
      show createSemaNodeF (m + 1) (Token.node ty els) c =
        createSemaNodeF (tokSize (Token.node ty els) + 1) (Token.node ty els) c
      rw [createSemaNodeF_node, createSemaNodeF_node]
      refine if_congr Iff.rfl (Module_init_congr els hAg c)
        (if_congr Iff.rfl (TypeAssignment_init_congr els hAg c)
        (if_congr Iff.rfl (ValueAssignment_init_congr els hAg c)
        (if_congr Iff.rfl rfl
        (if_congr Iff.rfl (ComponentType_init_congr els hAg c)
        (if_congr Iff.rfl (NamedType_init_congr els hAg c)
        (if_congr Iff.rfl (ValueListType_init_congr els hAg c)
        (if_congr Iff.rfl (BitStringType_init_congr els hAg c)
        (if_congr Iff.rfl rfl
        (if_congr Iff.rfl ?_
        (if_congr Iff.rfl (SimpleType_init_congr els hAg c)
        (if_congr Iff.rfl rfl
        (if_congr Iff.rfl (TaggedType_init_congr els hAg c)
        (if_congr Iff.rfl (SequenceType_init_congr els hAg c)
        (if_congr Iff.rfl (ChoiceType_init_congr els hAg c)
        (if_congr Iff.rfl (SequenceOfType_init_congr els hAg c)
        (if_congr Iff.rfl (SetOfType_init_congr els hAg c)
        rfl))))))))))))))))
      cases els with
      | nil => rfl
      | cons e tl =>
        exact congrFun (hAg e (tokSize_lt_of_mem (List.mem_cons_self e tl))) c

/-- C8: `_create_sema_node` fails with the unknown-node-kind error
carrying the offending tag for every unrecognized tag, and a token
tagged `Type` is dispatched on its first child. -/
theorem C8_unknown_node_kind (ty : String) (hty : ty ∉ recognizedTags) :
    (∀ els c, _create_sema_node (.node ty els) c =
      .error ("Unknown token type: " ++ ty)) ∧
    (∀ e rest c, _create_sema_node (.node "Type" (e :: rest)) c =
      _create_sema_node e c) := by
  constructor
  · intro els c
    simp only [recognizedTags, List.mem_cons, List.not_mem_nil, or_false] at hty
    push_neg at hty
    obtain ⟨h1, h2, h3, h4, h5, h6, h7, h8, h9, h10, h11, h12, h13, h14, h15,
      h16, h17⟩ := hty
    show createSemaNodeF (tokSize (Token.node ty els) + 1) (Token.node ty els) c =
      .error ("Unknown token type: " ++ ty)
    rw [createSemaNodeF_node]
    rw [if_neg (by simp [h1]), if_neg (by simp [h2]), if_neg (by simp [h3]),
      if_neg (by simp [h4]), if_neg (by simp [h5]), if_neg (by simp [h6]),
      if_neg (by simp [h7]), if_neg (by simp [h8]), if_neg (by simp [h9]),
      if_neg (by simp [h10]), if_neg (by simp [h11]), if_neg (by simp [h12]),
      if_neg (by simp [h13]), if_neg (by simp [h14]), if_neg (by simp [h15]),
      if_neg (by simp [h16]), if_neg (by simp [h17])]
    rfl
  · intro e rest c
    show createSemaNodeF (tokSize (Token.node "Type" (e :: rest))) e c =
      _create_sema_node e c
    refine createF_stable _ e c ?_
    have h1 : tokSize (Token.node "Type" (e :: rest)) =
        1 + (1 + tokSize e + tokListSize rest) := rfl
    omega

/-- C10: a `TaggedType` token carrying the `EXPLICIT` keyword and one
with no tagging keyword at all build the very same semantic node (in
particular `implicit = false`), so the semantic model (and hence any
rendering of it) cannot distinguish the two inputs. -/
theorem C10_explicit_keyword_indistinguishable (tag_token type_token : Token)
    (h : isAnnotated type_token = true) :
    (∀ c, _create_sema_node
        (.node "TaggedType" [tag_token, .lit "EXPLICIT", type_token]) c =
      _create_sema_node (.node "TaggedType" [tag_token, type_token]) c) ∧
    (∀ c r c', _create_sema_node
        (.node "TaggedType" [tag_token, .lit "EXPLICIT", type_token]) c =
          .ok (r, c') →
      ∃ cn cnum td, r = .taggedType cn cnum false td) := by
  have hs1 : createSemaNodeF
      (tokSize (Token.node "TaggedType" [tag_token, Token.lit "EXPLICIT", type_token]))
      type_token = _create_sema_node type_token := by
    funext c'
    refine createF_stable _ type_token c' ?_
    have h1 := tokSize_lt_of_mem
      (show type_token ∈ [tag_token, Token.lit "EXPLICIT", type_token] by simp)
    have h2 : tokSize (Token.node "TaggedType"
        [tag_token, Token.lit "EXPLICIT", type_token]) =
        1 + tokListSize [tag_token, Token.lit "EXPLICIT", type_token] := rfl
    omega
  have hs2 : createSemaNodeF
      (tokSize (Token.node "TaggedType" [tag_token, type_token]))
      type_token = _create_sema_node type_token := by
    funext c'
    refine createF_stable _ type_token c' ?_
    have h1 := tokSize_lt_of_mem
      (show type_token ∈ [tag_token, type_token] by simp)
    have h2 : tokSize (Token.node "TaggedType" [tag_token, type_token]) =
        1 + tokListSize [tag_token, type_token] := rfl
    omega
  have hlhs : ∀ c, _create_sema_node
      (.node "TaggedType" [tag_token, .lit "EXPLICIT", type_token]) c =
      (do
        let cls ← parseTagElements tag_token
        let r ← _create_sema_node type_token c
        pure (SemaNode.taggedType cls.1 cls.2 false r.1, r.2)) := by
    intro c
    show (do
        let cls ← parseTagElements tag_token
        let r ← createSemaNodeF
          (tokSize (Token.node "TaggedType" [tag_token, Token.lit "EXPLICIT", type_token]))
          type_token c
        pure (SemaNode.taggedType cls.1 cls.2 false r.1, r.2)) =
      (do
        let cls ← parseTagElements tag_token
        let r ← _create_sema_node type_token c
        pure (SemaNode.taggedType cls.1 cls.2 false r.1, r.2))
    rw [hs1]
  have hrhs : ∀ c, _create_sema_node
      (.node "TaggedType" [tag_token, type_token]) c =
      (do
        let cls ← parseTagElements tag_token
        let r ← _create_sema_node type_token c
        pure (SemaNode.taggedType cls.1 cls.2 false r.1, r.2)) := by
    intro c
    show TaggedType_init
        (createSemaNodeF (tokSize (Token.node "TaggedType" [tag_token, type_token])))
        [tag_token, type_token] c =
      (do
        let cls ← parseTagElements tag_token
        let r ← _create_sema_node type_token c
        pure (SemaNode.taggedType cls.1 cls.2 false r.1, r.2))
    simp only [TaggedType_init]
    rw [if_pos h, hs2]
  constructor
  · intro c
    rw [hlhs, hrhs]
  · intro c r c' hok
    rw [hlhs] at hok
    obtain ⟨cls, hcls, hok2⟩ := except_bind_ok hok
    obtain ⟨rr, hrr, hok3⟩ := except_bind_ok hok2
    have hpair : (SemaNode.taggedType cls.1 cls.2 false rr.1, rr.2) = (r, c') := by
      simpa [pure, Except.pure] using hok3
    exact ⟨cls.1, cls.2, rr.1, (congrArg Prod.fst hpair).symm⟩

/-! ### Counter monotonicity

The unnamed-member counter is threaded through every constructor and
only ever moves forward: a successful build never decreases it (in
Python terms, the process-wide counter is never reset). -/

theorem except_pure_ok {β : Type} {a r : β}
    (h : (pure a : Except String β) = .ok r) : a = r := by
  simpa [pure, Except.pure] using h

theorem except_throw_ne_ok {β : Type} {e : String} {r : β} :
    (throw e : Except String β) ≠ .ok r :=
  fun h => Except.noConfusion h

theorem createNodeListF_mono (create : CreateFun)
    (hc : ∀ t c r, create t c = .ok r → c ≤ r.2) :
    ∀ ts c r, createNodeListF create ts c = .ok r → c ≤ r.2 := by
  intro ts
  induction ts with
  | nil =>
    intro c r h
    cases except_pure_ok h
    exact Nat.le_refl c
  | cons t ts ih =>
    intro c r h
    simp only [createNodeListF] at h
    obtain ⟨r1, h1, h2⟩ := except_bind_ok h
    obtain ⟨rs, h3, h4⟩ := except_bind_ok h2
    cases except_pure_ok h4
    have e1 := hc t c r1 h1
    have e2 := ih r1.2 rs h3
    show c ≤ rs.2
    omega

theorem Module_init_mono (create : CreateFun)
    (hc : ∀ t c r, create t c = .ok r → c ≤ r.2) :
    ∀ els c r, Module_init create els c = .ok r → c ≤ r.2 := by
  intro els c r h
  rcases els with _ | ⟨mr, _ | ⟨e2, _ | ⟨e3, _ | ⟨e4, _ | ⟨mb, _ | ⟨e6, _ | ⟨e7, tl⟩⟩⟩⟩⟩⟩⟩ <;>
    try exact absurd h except_throw_ne_ok
  cases mr with
  | lit s => exact absurd h except_throw_ne_ok
  | group gr => exact absurd h except_throw_ne_ok
  | node ty1 mrEls =>
    cases mb with
    | lit s2 => exact absurd h except_throw_ne_ok
    | group g2 => exact absurd h except_throw_ne_ok
    | node ty2 mbEls =>
      simp only [Module_init] at h
      obtain ⟨nm, hn, h2⟩ := except_bind_ok h
      obtain ⟨rl, hrl, h3⟩ := except_bind_ok h2
      cases except_pure_ok h3
      exact createNodeListF_mono create hc mbEls c rl hrl

theorem TypeAssignment_init_mono (create : CreateFun)
    (hc : ∀ t c r, create t c = .ok r → c ≤ r.2) :
    ∀ els c r, TypeAssignment_init create els c = .ok r → c ≤ r.2 := by
  intro els c r h
  rcases els with _ | ⟨a0, _ | ⟨a1, _ | ⟨a2, _ | ⟨a3, tl⟩⟩⟩⟩ <;>
    try exact absurd h except_throw_ne_ok
  simp only [TypeAssignment_init] at h
  obtain ⟨n, hn, h2⟩ := except_bind_ok h
  obtain ⟨r1, hr1, h3⟩ := except_bind_ok h2
  cases except_pure_ok h3
  exact hc a2 c r1 hr1

theorem ValueAssignment_init_mono (create : CreateFun)
    (hc : ∀ t c r, create t c = .ok r → c ≤ r.2) :
    ∀ els c r, ValueAssignment_init create els c = .ok r → c ≤ r.2 := by
  intro els c r h
  rcases els with _ | ⟨a0, _ | ⟨a1, _ | ⟨a2, _ | ⟨a3, _ | ⟨a4, tl⟩⟩⟩⟩⟩ <;>
    try exact absurd h except_throw_ne_ok
  simp only [ValueAssignment_init] at h
  obtain ⟨vnEls, h1, h2⟩ := except_bind_ok h
  obtain ⟨vn, h3, h4⟩ := except_bind_ok h2
  obtain ⟨r1, h5, h6⟩ := except_bind_ok h4
  have e1 := hc a1 c r1 h5
  by_cases hb : isAnnotated a3 = true
  · rw [if_pos hb] at h6
    obtain ⟨rv, h7, h8⟩ := except_bind_ok h6
    have e2 := hc a3 r1.2 rv h7
    cases except_pure_ok h8
    show c ≤ rv.2
    omega
  · rw [if_neg hb] at h6
    cases except_pure_ok h6
    exact e1

theorem ComponentType_init_mono (create : CreateFun)
    (hc : ∀ t c r, create t c = .ok r → c ≤ r.2) :
    ∀ els c r, ComponentType_init create els c = .ok r → c ≤ r.2 := by
  intro els c r h
  rcases els with _ | ⟨a0, tl⟩
  · exact absurd h except_throw_ne_ok
  simp only [ComponentType_init] at h
  obtain ⟨fty, h1, h2⟩ := except_bind_ok h
  by_cases hT : (fty == "Type") = true
  · rw [if_pos hT] at h2
    obtain ⟨opt, h3, h4⟩ := except_bind_ok h2
    obtain ⟨dflt, h5, h6⟩ := except_bind_ok h4
    obtain ⟨r1, h7, h8⟩ := except_bind_ok h6
    have e1 := hc a0 (_get_next_unnamed c).2 r1 h7
    have e2 : (_get_next_unnamed c).2 = c + 1 := rfl
    cases except_pure_ok h8
    show c ≤ r1.2
    omega
  · rw [if_neg hT] at h2
    by_cases hI : (fty == "Identifier") = true
    · rw [if_pos hI] at h2
      cases tl with
      | nil => exact absurd h2 except_throw_ne_ok
      | cons t0 tl2 =>
        obtain ⟨ftEls, h3, h4⟩ := except_bind_ok h2
        obtain ⟨ident, h5, h6⟩ := except_bind_ok h4
        obtain ⟨opt, h7, h8⟩ := except_bind_ok h6
        obtain ⟨dflt, h9, h10⟩ := except_bind_ok h8
        obtain ⟨r1, h11, h12⟩ := except_bind_ok h10
        cases except_pure_ok h12
        exact hc t0 c r1 h11
    · rw [if_neg hI] at h2
      exact absurd h2 except_throw_ne_ok

theorem NamedType_init_mono (create : CreateFun)
    (hc : ∀ t c r, create t c = .ok r → c ≤ r.2) :
    ∀ els c r, NamedType_init create els c = .ok r → c ≤ r.2 := by
  intro els c r h
  rcases els with _ | ⟨a0, _ | ⟨a1, tl⟩⟩ <;>
    try exact absurd h except_throw_ne_ok
  simp only [NamedType_init] at h
  obtain ⟨ty0, h1, h2⟩ := except_bind_ok h
  obtain ⟨ty1, h3, h4⟩ := except_bind_ok h2
  by_cases hb : (ty0 == "Identifier" && ty1 == "Type") = true
  · rw [if_pos hb] at h4
    obtain ⟨e0Els, h5, h6⟩ := except_bind_ok h4
    obtain ⟨i, h7, h8⟩ := except_bind_ok h6
    obtain ⟨r1, h9, h10⟩ := except_bind_ok h8
    cases except_pure_ok h10
    exact hc a1 c r1 h9
  · rw [if_neg hb] at h4
    exact absurd h4 except_throw_ne_ok

theorem ValueListType_init_mono (create : CreateFun)
    (hc : ∀ t c r, create t c = .ok r → c ≤ r.2) :
    ∀ els c r, ValueListType_init create els c = .ok r → c ≤ r.2 := by
  intro els c r h
  rcases els with _ | ⟨a0, _ | ⟨a1, tl⟩⟩
  · exact absurd h except_throw_ne_ok
  · simp only [ValueListType_init] at h
    obtain ⟨tn, h1, h2⟩ := except_bind_ok h
    cases except_pure_ok h2
    exact Nat.le_refl c
  · cases a1 with
    | lit s =>
      simp only [ValueListType_init] at h
      obtain ⟨tn, h1, h2⟩ := except_bind_ok h
      exact absurd h2 except_throw_ne_ok
    | node nty nEls =>
      simp only [ValueListType_init] at h
      obtain ⟨tn, h1, h2⟩ := except_bind_ok h
      exact absurd h2 except_throw_ne_ok
    | group vts =>
      simp only [ValueListType_init] at h
      obtain ⟨tn, h1, h2⟩ := except_bind_ok h
      obtain ⟨rl, h3, h4⟩ := except_bind_ok h2
      cases except_pure_ok h4
      exact createNodeListF_mono create hc vts c rl h3

theorem BitStringType_init_mono (create : CreateFun)
    (hc : ∀ t c r, create t c = .ok r → c ≤ r.2) :
    ∀ els c r, BitStringType_init create els c = .ok r → c ≤ r.2 := by
  intro els c r h
  rcases els with _ | ⟨a0, _ | ⟨a1, tl⟩⟩
  · exact absurd h except_throw_ne_ok
  · simp only [BitStringType_init] at h
    obtain ⟨tn, h1, h2⟩ := except_bind_ok h
    cases except_pure_ok h2
    exact Nat.le_refl c
  · cases a1 with
    | lit s =>
      simp only [BitStringType_init] at h
      obtain ⟨tn, h1, h2⟩ := except_bind_ok h
      exact absurd h2 except_throw_ne_ok
    | node nty nEls =>
      simp only [BitStringType_init] at h
      obtain ⟨tn, h1, h2⟩ := except_bind_ok h
      exact absurd h2 except_throw_ne_ok
    | group bts =>
      simp only [BitStringType_init] at h
      obtain ⟨tn, h1, h2⟩ := except_bind_ok h
      obtain ⟨rl, h3, h4⟩ := except_bind_ok h2
      cases except_pure_ok h4
      exact createNodeListF_mono create hc bts c rl h3

theorem SimpleType_init_mono (create : CreateFun)
    (hc : ∀ t c r, create t c = .ok r → c ≤ r.2) :
    ∀ els c r, SimpleType_init create els c = .ok r → c ≤ r.2 := by
  intro els c r h
  rcases els with _ | ⟨a0, _ | ⟨e1, tl2⟩⟩
  · exact absurd h except_throw_ne_ok
  · simp only [SimpleType_init] at h
    obtain ⟨tn, h1, h2⟩ := except_bind_ok h
    cases except_pure_ok h2
    exact Nat.le_refl c
  cases e1 with
  | lit s =>
    simp only [SimpleType_init] at h
    obtain ⟨tn, h1, h2⟩ := except_bind_ok h
    exact absurd h2 except_throw_ne_ok
  | group gr =>
    simp only [SimpleType_init] at h
    obtain ⟨tn, h1, h2⟩ := except_bind_ok h
    exact absurd h2 except_throw_ne_ok
  | node cty cEls =>
    simp only [SimpleType_init] at h
    obtain ⟨tn, h1, h2⟩ := except_bind_ok h
    by_cases hC : (cty == "Constraint") = true
    · rw [if_pos hC] at h2
      rcases cEls with _ | ⟨mn, _ | ⟨mx, _ | ⟨c3, ctl⟩⟩⟩ <;>
        try exact absurd h2 except_throw_ne_ok
      obtain ⟨r1, h3, h4⟩ := except_bind_ok h2
      obtain ⟨r2, h5, h6⟩ := except_bind_ok h4
      have key : ∀ (x : Token) (c₀ : Nat) (r₀ : MaybeNode × Nat),
          (if isAnnotated x then do
              let rr ← create x c₀
              pure (MaybeNode.node rr.1, rr.2)
            else pure (MaybeNode.raw x, c₀)) = .ok r₀ → c₀ ≤ r₀.2 := by
        intro x c₀ r₀ hx
        by_cases hb : isAnnotated x = true
        · rw [if_pos hb] at hx
          obtain ⟨rr, hr, hp⟩ := except_bind_ok hx
          cases except_pure_ok hp
          exact hc x c₀ rr hr
        · rw [if_neg hb] at hx
          cases except_pure_ok hx
          exact Nat.le_refl c₀
      have e1 := key mn c r1 h3
      have e2 := key mx r1.2 r2 h5
      cases except_pure_ok h6
      show c ≤ r2.2
      omega
    · rw [if_neg hC] at h2
      cases except_pure_ok h2
      exact Nat.le_refl c

theorem TaggedType_init_mono (create : CreateFun)
    (hc : ∀ t c r, create t c = .ok r → c ≤ r.2) :
    ∀ els c r, TaggedType_init create els c = .ok r → c ≤ r.2 := by
  intro els c r h
  rcases els with _ | ⟨a0, _ | ⟨e1, rest⟩⟩ <;>
    try exact absurd h except_throw_ne_ok
  simp only [TaggedType_init] at h
  by_cases hb : isAnnotated e1 = true
  · rw [if_pos hb] at h
    obtain ⟨cls, h1, h2⟩ := except_bind_ok h
    obtain ⟨r1, h3, h4⟩ := except_bind_ok h2
    cases except_pure_ok h4
    exact hc e1 c r1 h3
  · rw [if_neg hb] at h
    cases rest with
    | nil => exact absurd h except_throw_ne_ok
    | cons tt0 rest2 =>
      obtain ⟨cls, h1, h2⟩ := except_bind_ok h
      obtain ⟨r1, h3, h4⟩ := except_bind_ok h2
      cases except_pure_ok h4
      exact hc tt0 c r1 h3

theorem SequenceType_init_mono (create : CreateFun)
    (hc : ∀ t c r, create t c = .ok r → c ≤ r.2) :
    ∀ els c r, SequenceType_init create els c = .ok r → c ≤ r.2 := by
  intro els c r h
  rcases els with _ | ⟨a0, _ | ⟨a1, _ | ⟨a2, tl⟩⟩⟩ <;>
    try exact absurd h except_throw_ne_ok
  cases a1 with
  | lit s =>
    simp only [SequenceType_init] at h
    obtain ⟨tn, h1, h2⟩ := except_bind_ok h
    exact absurd h2 except_throw_ne_ok
  | node nty nEls =>
    simp only [SequenceType_init] at h
    obtain ⟨tn, h1, h2⟩ := except_bind_ok h
    exact absurd h2 except_throw_ne_ok
  | group cts =>
    simp only [SequenceType_init] at h
    obtain ⟨tn, h1, h2⟩ := except_bind_ok h
    obtain ⟨rl, h3, h4⟩ := except_bind_ok h2
    cases except_pure_ok h4
    exact createNodeListF_mono create hc cts c rl h3

theorem ChoiceType_init_mono (create : CreateFun)
    (hc : ∀ t c r, create t c = .ok r → c ≤ r.2) :
    ∀ els c r, ChoiceType_init create els c = .ok r → c ≤ r.2 := by
  intro els c r h
  rcases els with _ | ⟨a0, _ | ⟨a1, _ | ⟨a2, tl⟩⟩⟩ <;>
    try exact absurd h except_throw_ne_ok
  cases a1 with
  | lit s =>
    simp only [ChoiceType_init] at h
    obtain ⟨tn, h1, h2⟩ := except_bind_ok h
    exact absurd h2 except_throw_ne_ok
  | node nty nEls =>
    simp only [ChoiceType_init] at h
    obtain ⟨tn, h1, h2⟩ := except_bind_ok h
    exact absurd h2 except_throw_ne_ok
  | group cts =>
    simp only [ChoiceType_init] at h
    obtain ⟨tn, h1, h2⟩ := except_bind_ok h
    obtain ⟨rl, h3, h4⟩ := except_bind_ok h2
    cases except_pure_ok h4
    exact createNodeListF_mono create hc cts c rl h3

theorem SequenceOfType_init_mono (create : CreateFun)
    (hc : ∀ t c r, create t c = .ok r → c ≤ r.2) :
    ∀ els c r, SequenceOfType_init create els c = .ok r → c ≤ r.2 := by
  intro els c r h
  rcases els with _ | ⟨a0, _ | ⟨a1, _ | ⟨a2, tl⟩⟩⟩ <;>
    try exact absurd h except_throw_ne_ok
  simp only [SequenceOfType_init] at h
  obtain ⟨tn, h1, h2⟩ := except_bind_ok h
  obtain ⟨r1, h3, h4⟩ := except_bind_ok h2
  cases except_pure_ok h4
  exact hc a1 c r1 h3

theorem SetOfType_init_mono (create : CreateFun)
    (hc : ∀ t c r, create t c = .ok r → c ≤ r.2) :
    ∀ els c r, SetOfType_init create els c = .ok r → c ≤ r.2 := by
  intro els c r h
  rcases els with _ | ⟨a0, _ | ⟨a1, _ | ⟨a2, tl⟩⟩⟩ <;>
    try exact absurd h except_throw_ne_ok
  simp only [SetOfType_init] at h
  obtain ⟨tn, h1, h2⟩ := except_bind_ok h
  obtain ⟨r1, h3, h4⟩ := except_bind_ok h2
  cases except_pure_ok h4
  exact hc a1 c r1 h3

theorem ValueReference_init_mono :
    ∀ els c r, ValueReference_init els c = .ok r → c ≤ r.2 := by
  intro els c r h
  rcases els with _ | ⟨e, tl⟩
  · exact absurd h except_throw_ne_ok
  simp only [ValueReference_init] at h
  obtain ⟨n, h1, h2⟩ := except_bind_ok h
  cases except_pure_ok h2
  exact Nat.le_refl c

theorem NamedValue_init_mono :
    ∀ els c r, NamedValue_init els c = .ok r → c ≤ r.2 := by
  intro els c r h
  rcases els with _ | ⟨a0, _ | ⟨a1, _ | ⟨a2, tl⟩⟩⟩ <;>
    try exact absurd h except_throw_ne_ok
  simp only [NamedValue_init] at h
  obtain ⟨iEls, h1, h2⟩ := except_bind_ok h
  obtain ⟨vEls, h3, h4⟩ := except_bind_ok h2
  obtain ⟨i, h5, h6⟩ := except_bind_ok h4
  obtain ⟨v, h7, h8⟩ := except_bind_ok h6
  cases except_pure_ok h8
  exact Nat.le_refl c

theorem UserDefinedType_init_mono :
    ∀ els c r, UserDefinedType_init els c = .ok r → c ≤ r.2 := by
  intro els c r h
  rcases els with _ | ⟨e, tl⟩
  · exact absurd h except_throw_ne_ok
  simp only [UserDefinedType_init] at h
  obtain ⟨n, h1, h2⟩ := except_bind_ok h
  cases except_pure_ok h2
  exact Nat.le_refl c

theorem createSemaNodeF_mono :
    ∀ n t c r, createSemaNodeF n t c = .ok r → c ≤ r.2 := by
  intro n
  induction n with
  | zero =>
    intro t c r h
    exact absurd h except_throw_ne_ok
  | succ m ih =>
    intro t c r h
    cases t with
    | lit s => exact absurd h except_throw_ne_ok
    | group els => exact absurd h except_throw_ne_ok
    | node ty els =>
      rw [createSemaNodeF_node] at h
      by_cases h1 : (ty == "ModuleDefinition") = true
      · rw [if_pos h1] at h
        exact Module_init_mono _ ih els c r h
      rw [if_neg h1] at h
      by_cases h2 : (ty == "TypeAssignment") = true
      · rw [if_pos h2] at h
        exact TypeAssignment_init_mono _ ih els c r h
      rw [if_neg h2] at h
      by_cases h3 : (ty == "ValueAssignment") = true
      · rw [if_pos h3] at h
        exact ValueAssignment_init_mono _ ih els c r h
      rw [if_neg h3] at h
      by_cases h4 : (ty == "ValueReference") = true
      · rw [if_pos h4] at h
        exact ValueReference_init_mono els c r h
      rw [if_neg h4] at h
      by_cases h5 : (ty == "ComponentType") = true
      · rw [if_pos h5] at h
        exact ComponentType_init_mono _ ih els c r h
      rw [if_neg h5] at h
      by_cases h6 : (ty == "NamedType") = true
      · rw [if_pos h6] at h
        exact NamedType_init_mono _ ih els c r h
      rw [if_neg h6] at h
      by_cases h7 : (ty == "ValueListType") = true
      · rw [if_pos h7] at h
        exact ValueListType_init_mono _ ih els c r h
      rw [if_neg h7] at h
      by_cases h8 : (ty == "BitStringType") = true
      · rw [if_pos h8] at h
        exact BitStringType_init_mono _ ih els c r h
      rw [if_neg h8] at h
      by_cases h9 : (ty == "NamedValue") = true
      · rw [if_pos h9] at h
        exact NamedValue_init_mono els c r h
      rw [if_neg h9] at h
      by_cases h10 : (ty == "Type") = true
      · rw [if_pos h10] at h
        cases els with
        | nil => exact absurd h except_throw_ne_ok
        | cons e tl => exact ih e c r h
      rw [if_neg h10] at h
      by_cases h11 : (ty == "SimpleType") = true
      · rw [if_pos h11] at h
        exact SimpleType_init_mono _ ih els c r h
      rw [if_neg h11] at h
      by_cases h12 : (ty == "ReferencedType") = true
      · rw [if_pos h12] at h
        exact UserDefinedType_init_mono els c r h
      rw [if_neg h12] at h
      by_cases h13 : (ty == "TaggedType") = true
      · rw [if_pos h13] at h
        exact TaggedType_init_mono _ ih els c r h
      rw [if_neg h13] at h
      by_cases h14 : (ty == "SequenceType") = true
      · rw [if_pos h14] at h
        exact SequenceType_init_mono _ ih els c r h
      rw [if_neg h14] at h
      by_cases h15 : (ty == "ChoiceType") = true
      · rw [if_pos h15] at h
        exact ChoiceType_init_mono _ ih els c r h
      rw [if_neg h15] at h
      by_cases h16 : (ty == "SequenceOfType") = true
      · rw [if_pos h16] at h
        exact SequenceOfType_init_mono _ ih els c r h
      rw [if_neg h16] at h
      by_cases h17 : (ty == "SetOfType") = true
      · rw [if_pos h17] at h
        exact SetOfType_init_mono _ ih els c r h
      rw [if_neg h17] at h
      exact absurd h except_throw_ne_ok

theorem create_mono : ∀ t c r, _create_sema_node t c = .ok r → c ≤ r.2 :=
  fun t c r h => createSemaNodeF_mono (tokSize t + 1) t c r h

theorem build_semantic_model_mono :
    ∀ ts c r, build_semantic_model ts c = .ok r → c ≤ r.2 :=
  fun ts c r h => createNodeListF_mono _create_sema_node create_mono ts c r h

/-- C2: contrary to the claim (and to the comment in the source),
`user_types()` does NOT skip declarations that are not TypeAssignments:
it reads `.type_name` on every declaration, so a module whose
declarations include a `ValueAssignment` (which has no `type_name`)
crashes with AttributeError instead of skipping it.  The last-write-wins
indexing the claim describes does hold on TypeAssignment-only inputs
(second conjunct). -/
theorem C2_user_types_crashes_on_value_assignment :
    user_types [.typeAssignment "T" (.simpleType "INTEGER" none),
      .valueAssignment (.valueReference "v") (.simpleType "INTEGER" none)
        (.raw (.lit "42"))] = .error "AttributeError" ∧
    user_types [.typeAssignment "T" (.simpleType "INTEGER" none),
      .typeAssignment "T" (.userDefinedType "U")] =
      .ok [("T", .userDefinedType "U")] :=
  ⟨rfl, rfl⟩

/-- C9: unnamed component members are named from the single threaded
counter: `_get_next_unnamed` formats `unnamed<n>` and strictly
increases the counter; a successful build never decreases it (the
counter is never reset); the two unnamed components of one `SEQUENCE`
receive the distinct, strictly increasing identifiers `unnamed<c+1>`
and `unnamed<c+2>` in component order; and the counter keeps increasing
across separately built modules (the second module's unnamed member is
`unnamed2`). -/
theorem C9_unnamed_counter_monotone :
    (∀ c, _get_next_unnamed c = ("unnamed" ++ toString (c + 1), c + 1) ∧
      c < (_get_next_unnamed c).2) ∧
    (∀ ts c r, build_semantic_model ts c = .ok r → c ≤ r.2) ∧
    (∀ c, _create_sema_node sequenceTwoUnnamedTok c =
      .ok (.sequenceType "SEQUENCE"
        [.componentType ("unnamed" ++ toString (c + 1)) false none
          (.simpleType "INTEGER" none),
         .componentType ("unnamed" ++ toString (c + 2)) false none
          (.simpleType "INTEGER" none)], c + 2)) ∧
    ("unnamed" ++ toString (0 + 1) : String) ≠ "unnamed" ++ toString (0 + 2) ∧
    build_semantic_model [moduleOneUnnamedTok "M1", moduleOneUnnamedTok "M2"] 0 =
      .ok ([.module "M1" [.typeAssignment "T" (.sequenceType "SEQUENCE"
          [.componentType "unnamed1" false none (.simpleType "INTEGER" none)])],
        .module "M2" [.typeAssignment "T" (.sequenceType "SEQUENCE"
          [.componentType "unnamed2" false none (.simpleType "INTEGER" none)])]], 2) :=
  ⟨fun c => ⟨rfl, Nat.lt_succ_self c⟩, build_semantic_model_mono,
   fun c => rfl, by decide, rfl⟩

/-! ### Witnesses: the claim theorems applied at concrete inputs -/

theorem C1_topological_sort_dependency_first_witness :
    (∃ result, topological_sort declName declRefs
        [SemaNode.typeAssignment "A" (.userDefinedType "B"),
         SemaNode.typeAssignment "B" (.simpleType "INTEGER" none)] = .ok result ∧
      result.Perm [SemaNode.typeAssignment "A" (.userDefinedType "B"),
         SemaNode.typeAssignment "B" (.simpleType "INTEGER" none)] ∧
      ∀ a ∈ [SemaNode.typeAssignment "A" (.userDefinedType "B"),
         SemaNode.typeAssignment "B" (.simpleType "INTEGER" none)],
        ∀ b ∈ [SemaNode.typeAssignment "A" (.userDefinedType "B"),
         SemaNode.typeAssignment "B" (.simpleType "INTEGER" none)],
        declName b ∈ declRefs a → declName a ≠ declName b →
          appearsBefore result b a) ∧
    topological_sort declName declRefs
        [SemaNode.typeAssignment "A" (.userDefinedType "B"),
         SemaNode.typeAssignment "B" (.simpleType "INTEGER" none)] =
      .ok [SemaNode.typeAssignment "B" (.simpleType "INTEGER" none),
           SemaNode.typeAssignment "A" (.userDefinedType "B")] := by
  refine C1_topological_sort_dependency_first declName declRefs _ (by decide) ?_
  rintro ⟨n, hcyc⟩
  have hedge : ∀ x y, declEdge declName declRefs
      [SemaNode.typeAssignment "A" (.userDefinedType "B"),
       SemaNode.typeAssignment "B" (.simpleType "INTEGER" none)] x y →
      (x = "A" ∧ y = "B") ∨ (x = "B" ∧ y = "INTEGER") := by
    rintro x y ⟨d, hd, hn, hm⟩
    simp only [List.mem_cons, List.not_mem_nil, or_false] at hd
    rcases hd with rfl | rfl
    · left
      have hy : y ∈ ["B"] := hm
      simp only [List.mem_cons, List.not_mem_nil, or_false] at hy
      exact ⟨hn.symm.trans rfl, hy⟩
    · right
      have hy : y ∈ ["INTEGER"] := hm
      simp only [List.mem_cons, List.not_mem_nil, or_false] at hy
      exact ⟨hn.symm.trans rfl, hy⟩
  have hmono : ∀ x y, Relation.TransGen (declEdge declName declRefs
      [SemaNode.typeAssignment "A" (.userDefinedType "B"),
       SemaNode.typeAssignment "B" (.simpleType "INTEGER" none)]) x y →
      (x = "A" ∧ (y = "B" ∨ y = "INTEGER")) ∨ (x = "B" ∧ y = "INTEGER") := by
    intro x y hxy
    induction hxy with
    | single h =>
      rcases hedge _ _ h with ⟨rfl, rfl⟩ | ⟨rfl, rfl⟩
      · exact Or.inl ⟨rfl, Or.inl rfl⟩
      · exact Or.inr ⟨rfl, rfl⟩
    | tail hxz hzy ihz =>
      rcases hedge _ _ hzy with ⟨rfl, rfl⟩ | ⟨rfl, rfl⟩
      · rcases ihz with ⟨hx, hz⟩ | ⟨hx, hz⟩ <;> simp at hz
      · rcases ihz with ⟨hx, hz⟩ | ⟨hx, hz⟩
        · exact Or.inl ⟨hx, Or.inr rfl⟩
        · simp at hz
  rcases hmono n n hcyc with ⟨rfl, hz⟩ | ⟨rfl, hz⟩ <;> simp at hz

theorem C3_cyclic_reference_error_witness :
    ((∃ gf, topological_sort declName declRefs
        [SemaNode.typeAssignment "A" (.userDefinedType "B"),
         SemaNode.typeAssignment "B" (.userDefinedType "C"),
         SemaNode.typeAssignment "C" (.userDefinedType "A")] = .error gf) ↔
      ∃ n, Relation.TransGen (declEdge declName declRefs
        [SemaNode.typeAssignment "A" (.userDefinedType "B"),
         SemaNode.typeAssignment "B" (.userDefinedType "C"),
         SemaNode.typeAssignment "C" (.userDefinedType "A")]) n n) ∧
    (∀ gf, topological_sort declName declRefs
        [SemaNode.typeAssignment "A" (.userDefinedType "B"),
         SemaNode.typeAssignment "B" (.userDefinedType "C"),
         SemaNode.typeAssignment "C" (.userDefinedType "A")] = .error gf →
      (∀ p ∈ gf, p ∈ buildGraph declName declRefs
        [SemaNode.typeAssignment "A" (.userDefinedType "B"),
         SemaNode.typeAssignment "B" (.userDefinedType "C"),
         SemaNode.typeAssignment "C" (.userDefinedType "A")]) ∧
      (∀ p ∈ gf, ∀ b ∈ p.2,
        b ∈ keysOf (buildGraph declName declRefs
          [SemaNode.typeAssignment "A" (.userDefinedType "B"),
           SemaNode.typeAssignment "B" (.userDefinedType "C"),
           SemaNode.typeAssignment "C" (.userDefinedType "A")]) → b ∈ keysOf gf)) ∧
    topological_sort declName declRefs
        [SemaNode.typeAssignment "A" (.userDefinedType "B"),
         SemaNode.typeAssignment "B" (.userDefinedType "C"),
         SemaNode.typeAssignment "C" (.userDefinedType "A")] =
      .error [("A", ["B"]), ("B", ["C"]), ("C", ["A"])] :=
  C3_cyclic_reference_error declName declRefs
    [SemaNode.typeAssignment "A" (.userDefinedType "B"),
     SemaNode.typeAssignment "B" (.userDefinedType "C"),
     SemaNode.typeAssignment "C" (.userDefinedType "A")] (by decide)

theorem C4_amended_remainder_cyclic_witness :
    (∃ n, Relation.TransGen
      (depEdge [("B", ["C"]), ("C", ["B", "X"]), ("X", ["INTEGER"])]) n n) ∧
    (∀ k ∈ keysOf [("B", ["C"]), ("C", ["B", "X"]), ("X", ["INTEGER"])],
      ∃ x ∈ keysOf [("B", ["C"]), ("C", ["B", "X"]), ("X", ["INTEGER"])],
        depEdge [("B", ["C"]), ("C", ["B", "X"]), ("X", ["INTEGER"])] x k) :=
  C4_amended_remainder_cyclic declName declRefs
    [SemaNode.typeAssignment "B" (.userDefinedType "C"),
     SemaNode.typeAssignment "C" (.sequenceType "SEQUENCE"
       [.componentType "b" false none (.userDefinedType "B"),
        .componentType "x" false none (.userDefinedType "X")]),
     SemaNode.typeAssignment "X" (.simpleType "INTEGER" none)]
    [("B", ["C"]), ("C", ["B", "X"]), ("X", ["INTEGER"])] rfl

theorem C8_unknown_node_kind_witness :
    (∀ els c, _create_sema_node (.node "Bogus" els) c =
      .error ("Unknown token type: " ++ "Bogus")) ∧
    (∀ e rest c, _create_sema_node (.node "Type" (e :: rest)) c =
      _create_sema_node e c) :=
  C8_unknown_node_kind "Bogus" (by decide)

theorem C10_explicit_keyword_indistinguishable_witness :
    (∀ c, _create_sema_node
        (.node "TaggedType" [.node "Tag" [], .lit "EXPLICIT",
          .node "SimpleType" [.lit "INTEGER"]]) c =
      _create_sema_node (.node "TaggedType" [.node "Tag" [],
        .node "SimpleType" [.lit "INTEGER"]]) c) ∧
    (∀ c r c', _create_sema_node
        (.node "TaggedType" [.node "Tag" [], .lit "EXPLICIT",
          .node "SimpleType" [.lit "INTEGER"]]) c = .ok (r, c') →
      ∃ cn cnum td, r = .taggedType cn cnum false td) :=
  C10_explicit_keyword_indistinguishable (.node "Tag" [])
    (.node "SimpleType" [.lit "INTEGER"]) rfl

end Asn1ate
